import Mathlib

/-!
# CLASH: the decision ladder and the execution orchestrator

A shallow embedding of the Go packages `internal/classifier`, `internal/contextinfo`,
`internal/policy`, `internal/preview`, `internal/ui`, `internal/audit`,
`internal/arbiter` and `internal/runner`.

Go strings are Lean strings and every operation on them works on the list of their
characters, so that it evaluates in the kernel; a Go string is taken to hold valid
UTF-8, for which the prefix and substring tests on bytes and on characters agree.
Slices are lists (a nil slice and an
empty slice are both `[]`), Go `int` is `Int`, a Go `error` is the text of its message
and a `(T, error)` result is an `Option` or an `Except`.  What the code obtains from the
operating system (file system, environment, standard input, child processes) is read
from an explicit `Host` or `World` value.
-/

set_option linter.dupNamespace false

namespace Clash

/-! ## The Go standard library functions the code calls -/

/-- Services of the machine the program runs on, as the standard library exposes them. -/
structure Host where
  /-- The table behind `unicode.ToLower` for characters outside ASCII. -/
  unicodeToLower : Char → Char
  /-- The result of `os.UserHomeDir`: `none` when it reports an error. -/
  userHomeDir : Option String
  /-- The function `os.Getenv`. -/
  getenv : String → String
  /-- The function `filepath.Join` applied to the listed elements. -/
  pathJoin : List String → String
  /-- The function `filepath.IsAbs`. -/
  isAbs : String → Bool
  /-- The function `filepath.EvalSymlinks`: `none` when it reports an error. -/
  evalSymlinks : String → Option String
  /-- The function `filepath.Abs`: `none` when it reports an error. -/
  abs : String → Option String
  /-- The function `filepath.Rel base target`: `none` when it reports an error. -/
  rel : String → String → Option String
  /-- The function `filepath.Dir`. -/
  pathDir : String → String

namespace strings

/-- The function `strings.HasPrefix s p`. -/
def HasPrefix (s p : String) : Bool :=
  p.data.isPrefixOf s.data

/-- The function `strings.TrimPrefix s p`. -/
def TrimPrefix (s p : String) : String :=
  if HasPrefix s p then String.mk (s.data.drop p.data.length) else s

/-- Concatenation of character lists with a separator between consecutive ones. -/
def joinChars (sep : List Char) : List (List Char) → List Char
  | [] => []
  | [x] => x
  | x :: y :: rest => x ++ sep ++ joinChars sep (y :: rest)

/-- The function `strings.Join elems sep`. -/
def Join (elems : List String) (sep : String) : String :=
  String.mk (joinChars sep.data (elems.map String.data))

/-- Whether `sub` occurs in `s` as a contiguous block. -/
def containsChars : List Char → List Char → Bool
  | [], sub => sub.isPrefixOf []
  | c :: cs, sub => sub.isPrefixOf (c :: cs) || containsChars cs sub

/-- The function `strings.Contains s sub`. -/
def Contains (s sub : String) : Bool :=
  containsChars s.data sub.data

/-- The function `strings.ToLower`: ASCII letters are lowered directly, every other
character goes through the Unicode table of the host. -/
def ToLower (h : Host) (s : String) : String :=
  String.mk (s.data.map fun c => if c.toNat < 128 then c.toLower else h.unicodeToLower c)

/-- The predicate `unicode.IsSpace`. -/
def isSpace (c : Char) : Bool :=
  let n := c.toNat
  n == 9 || n == 10 || n == 11 || n == 12 || n == 13 || n == 32 || n == 0x85 || n == 0xA0
    || n == 0x1680 || (0x2000 ≤ n && n ≤ 0x200a) || n == 0x2028 || n == 0x2029
    || n == 0x202f || n == 0x205f || n == 0x3000

/-- The function `strings.TrimSpace`. -/
def TrimSpace (s : String) : String :=
  String.mk (((s.data.dropWhile isSpace).reverse.dropWhile isSpace).reverse)

end strings

namespace bytes

/-- The pieces of a text between its line feeds: what `bytes.Split(s, "\n")` returns.
The text without a line feed, the empty one included, is one piece. -/
def splitLF : List Char → List (List Char)
  | [] => [[]]
  | c :: cs =>
    if c = '\n' then [] :: splitLF cs
    else
      match splitLF cs with
      | [] => [[c]]
      | piece :: pieces => (c :: piece) :: pieces

/-- The call `bytes.Split(bytes.TrimSpace(out), []byte("\n"))`, each piece as a string. -/
def trimmedLines (out : String) : List String :=
  (splitLF (strings.TrimSpace out).data).map String.mk

end bytes

namespace bufio

/-- The constant `MaxScanTokenSize`. -/
def MaxScanTokenSize : Nat := 64 * 1024

/-- The number of bytes of the UTF-8 encoding of a text. -/
def byteLength (l : List Char) : Nat :=
  (l.map Char.utf8Size).sum

/-- The function `dropCR`: a line without its final carriage return. -/
def dropCR (l : List Char) : List Char :=
  if l.getLast? = some '\r' then l.dropLast else l

/-- The tokens that successive calls of `Scan` yield over the pieces of the input
between line feeds, with the split function `ScanLines`: a final empty piece is no token,
and scanning stops at a piece that does not fit into the buffer. -/
def scanPieces : List (List Char) → List String
  | [] => []
  | [piece] =>
    if piece = [] then []
    else if byteLength piece ≥ MaxScanTokenSize then []
    else [String.mk (dropCR piece)]
  | piece :: next :: rest =>
    if byteLength piece ≥ MaxScanTokenSize then []
    else String.mk (dropCR piece) :: scanPieces (next :: rest)

/-- The texts `scanner.Text()` returns while `scanner.Scan()` is true, for a scanner
made by `bufio.NewScanner` over `out`. -/
def scanLines (out : String) : List String :=
  scanPieces (bytes.splitLF out.data)

end bufio

/-! ## Package `contextinfo` -/

namespace contextinfo

/-- The struct `GitSummary`. -/
structure GitSummary where
  Changed : Int
  Untracked : Int
deriving DecidableEq, Repr

/-- The struct `Info`. -/
structure Info where
  Cwd : String
  RepoRoot : String
  InRepo : Bool
  Git : GitSummary
deriving DecidableEq, Repr

/-- The function `IsInsideRepo`. -/
def IsInsideRepo (h : Host) (repoRoot path : String) : Bool :=
  if repoRoot = "" then false
  else
    match h.abs repoRoot with
    | none => false
    | some absRepo =>
      match h.abs path with
      | none => false
      | some absPath =>
        match h.rel absRepo absPath with
        | none => false
        | some rel => rel == "." || !strings.HasPrefix rel ".."

/-- The function `ResolvePath`: `none` stands for a non-nil error. -/
def ResolvePath (h : Host) (base candidate : String) : Option String :=
  if candidate = "" then none
  else
    let expanded : Option String :=
      if strings.HasPrefix candidate "~" then
        match h.userHomeDir with
        | none => none
        | some home => some (h.pathJoin [home, strings.TrimPrefix candidate "~"])
      else some candidate
    match expanded with
    | none => none
    | some c => h.evalSymlinks (if !h.isAbs c then h.pathJoin [base, c] else c)

end contextinfo

/-! ## Package `policy` -/

namespace policy

/-- The struct `Thresholds`. -/
structure Thresholds where
  DeleteCount : Int
  ModifyCount : Int
  PreviewSample : Int
deriving DecidableEq, Repr

/-- The struct `ArbiterConfig`. -/
structure ArbiterConfig where
  Enabled : Bool
  Provider : String
  Model : String
  APIKeyEnv : String
deriving DecidableEq, Repr

/-- The struct `Options`. -/
structure Options where
  AllowOutsideRepo : Bool
  RequireCleanTreeForBreakGlass : Bool
deriving DecidableEq, Repr

/-- The struct `Policy`. -/
structure Policy where
  Thresholds : Thresholds
  ProtectedPaths : List String
  AllowCommands : List String
  BlockCommands : List String
  ConfirmCommands : List String
  NetworkEgress : List String
  PackageManagers : List String
  Arbiter : ArbiterConfig
  Options : Options
deriving DecidableEq, Repr

/-- The function `merge`: the policy `base` points to when the call returns. -/
def merge (base override : Policy) : Policy :=
  let base :=
    if override.Thresholds.DeleteCount ≠ 0 then
      { base with
        Thresholds := { base.Thresholds with DeleteCount := override.Thresholds.DeleteCount } }
    else base
  let base :=
    if override.Thresholds.ModifyCount ≠ 0 then
      { base with
        Thresholds := { base.Thresholds with ModifyCount := override.Thresholds.ModifyCount } }
    else base
  let base :=
    if override.Thresholds.PreviewSample ≠ 0 then
      { base with
        Thresholds :=
          { base.Thresholds with PreviewSample := override.Thresholds.PreviewSample } }
    else base
  let base :=
    if override.ProtectedPaths.length > 0 then
      { base with ProtectedPaths := override.ProtectedPaths }
    else base
  let base :=
    if override.AllowCommands.length > 0 then
      { base with AllowCommands := override.AllowCommands }
    else base
  let base :=
    if override.BlockCommands.length > 0 then
      { base with BlockCommands := override.BlockCommands }
    else base
  let base :=
    if override.ConfirmCommands.length > 0 then
      { base with ConfirmCommands := override.ConfirmCommands }
    else base
  let base :=
    if override.NetworkEgress.length > 0 then
      { base with NetworkEgress := override.NetworkEgress }
    else base
  let base :=
    if override.PackageManagers.length > 0 then
      { base with PackageManagers := override.PackageManagers }
    else base
  let base :=
    if override.Arbiter.Enabled then { base with Arbiter := override.Arbiter }
    else if override.Arbiter.Provider ≠ "" ∨ override.Arbiter.Model ≠ "" ∨
        override.Arbiter.APIKeyEnv ≠ "" then
      { base with Arbiter := override.Arbiter }
    else base
  let base :=
    { base with
      Options :=
        { base.Options with
          AllowOutsideRepo :=
            base.Options.AllowOutsideRepo || override.Options.AllowOutsideRepo } }
  if override.Options.RequireCleanTreeForBreakGlass then
    { base with Options := { base.Options with RequireCleanTreeForBreakGlass := true } }
  else base

end policy

/-! ## Package `preview`: the hint a verdict carries -/

namespace preview

/-- The string type `HintKind`. -/
abbrev HintKind := String

/-- The constant `HintRM`. -/
def HintRM : HintKind := "rm"

/-- The constant `HintFindDelete`. -/
def HintFindDelete : HintKind := "find-delete"

/-- The constant `HintGitClean`. -/
def HintGitClean : HintKind := "git-clean"

/-- The struct `Hint`. -/
structure Hint where
  Kind : HintKind
  Args : List String
  Targets : List String := []
deriving DecidableEq, Repr

/-- The struct `Result` of the preview engine. -/
structure Result where
  Count : Int := 0
  Sample : List String := []
  Note : String := ""
  Err : String := ""
deriving DecidableEq, Repr

/-- What the preview engine reads from the machine besides the services of `Host`. -/
structure Tools where
  /-- Whether `os.Stat` on the path returns a nil error. -/
  statOk : String → Bool
  /-- The result of `cmd.Output()` for `exec.Command(name, args...)` with `cmd.Dir` set
  to the directory: the bytes of standard output, or the text of the error. -/
  output : String → List String → String → Except String String

/-- The loop of `previewRm` over the remaining targets, from the given `count` and
`sample`. -/
def previewRmLoop (h : Host) (t : Tools) (ctx : contextinfo.Info) (sampleLimit : Int) :
    List String → Int → List String → Int × List String
  | [], count, sample => (count, sample)
  | target :: rest, count, sample =>
    match contextinfo.ResolvePath h ctx.Cwd target with
    | none => previewRmLoop h t ctx sampleLimit rest count sample
    | some resolved =>
      if t.statOk resolved then
        previewRmLoop h t ctx sampleLimit rest (count + 1)
          (if (sample.length : Int) < sampleLimit then sample ++ [resolved] else sample)
      else previewRmLoop h t ctx sampleLimit rest count sample

/-- The function `previewRm`. -/
def previewRm (h : Host) (t : Tools) (hint : Hint) (ctx : contextinfo.Info)
    (sampleLimit : Int) : Result :=
  let (count, sample) := previewRmLoop h t ctx sampleLimit hint.Targets 0 []
  { Count := count, Sample := sample, Note := "targets resolved from provided arguments" }

/-- Lines 70 to 76 of `previewFindDelete`: the arguments of the hint without the
tokens `-delete`. -/
def findArgs (hint : Hint) : List String :=
  hint.Args.filter fun a => !(a == "-delete")

/-- The child process `previewFindDelete` runs, as the name and the arguments it passes
to `exec.Command`; `none` when it runs no process. -/
def findCommand (hint : Hint) : Option (String × List String) :=
  if (findArgs hint).length = 0 then none else some ("find", (findArgs hint).drop 1)

/-- The loop of `previewFindDelete` that collects the sample: `i` is the index of the
first remaining line. -/
def findSampleLoop (sampleLimit : Int) : Nat → List String → List String → List String
  | _, [], sample => sample
  | i, line :: rest, sample =>
    if (i : Int) ≥ sampleLimit then sample
    else findSampleLoop sampleLimit (i + 1) rest (sample ++ [line])

/-- The function `previewFindDelete`. -/
def previewFindDelete (t : Tools) (hint : Hint) (ctx : contextinfo.Info)
    (sampleLimit : Int) : Result :=
  match findCommand hint with
  | none => { Err := "no args for find" }
  | some (name, args) =>
    match t.output name args ctx.Cwd with
    | .error e => { Err := e }
    | .ok out =>
      let lines := bytes.trimmedLines out
      { Count := (lines.length : Int), Sample := findSampleLoop sampleLimit 0 lines [],
        Note := "find output without -delete" }

/-- Lines 99 to 105 of `previewGitClean`: the arguments passed to `git`, built from the
arguments of the hint after its first two; `none` is the panic of `hint.Args[2:]` on a
vector shorter than two. -/
def gitCleanArgs (hint : Hint) : Option (List String) :=
  if hint.Args.length < 2 then none
  else
    some (["clean", "-nd"] ++ (hint.Args.drop 2).filter fun a =>
      !(a == "-f" || a == "--force" || a == "-n" || a == "--dry-run"))

/-- The loop of `previewGitClean` over the remaining lines of the scanner. -/
def gitCleanLoop (sampleLimit : Int) : List String → Int → List String → Int × List String
  | [], count, sample => (count, sample)
  | line :: rest, count, sample =>
    if strings.TrimSpace line = "" then gitCleanLoop sampleLimit rest count sample
    else
      gitCleanLoop sampleLimit rest (count + 1)
        (if (sample.length : Int) < sampleLimit then sample ++ [line] else sample)

/-- The function `previewGitClean`: `none` stands for a panic. -/
def previewGitClean (t : Tools) (hint : Hint) (ctx : contextinfo.Info)
    (sampleLimit : Int) : Option Result :=
  match gitCleanArgs hint with
  | none => none
  | some args =>
    match t.output "git" args ctx.RepoRoot with
    | .error e => some { Err := e }
    | .ok out =>
      let (count, sample) := gitCleanLoop sampleLimit (bufio.scanLines out) 0 []
      some { Count := count, Sample := sample, Note := "git clean -nd preview" }

/-- The resolved paths of the targets that resolve and exist, in argument order. -/
def existingTargets (h : Host) (t : Tools) (ctx : contextinfo.Info)
    (targets : List String) : List String :=
  targets.filterMap fun target =>
    match contextinfo.ResolvePath h ctx.Cwd target with
    | none => none
    | some resolved => if t.statOk resolved then some resolved else none

/-- The function `Run` of the preview engine: `none` stands for a panic. -/
def Run (h : Host) (t : Tools) (hint : Hint) (ctx : contextinfo.Info)
    (sampleLimit : Int) : Option Result :=
  if hint.Kind = HintRM then some (previewRm h t hint ctx sampleLimit)
  else if hint.Kind = HintFindDelete then some (previewFindDelete t hint ctx sampleLimit)
  else if hint.Kind = HintGitClean then previewGitClean t hint ctx sampleLimit
  else some { Err := "no preview available" }

end preview

/-! ## Package `classifier` -/

namespace classifier

/-- The string type `DecisionType`. -/
abbrev DecisionType := String

/-- The constant `DecisionAllow`. -/
def DecisionAllow : DecisionType := "ALLOW"

/-- The constant `DecisionConfirm`. -/
def DecisionConfirm : DecisionType := "CONFIRM"

/-- The constant `DecisionBlock`. -/
def DecisionBlock : DecisionType := "BLOCK"

/-- The struct `Result`: the verdict of the ladder. -/
structure Result where
  Decision : DecisionType
  Hard : Bool := false
  Reasons : List String := []
  Signals : List String := []
  PreviewHint : Option preview.Hint := none
  SaferAlternative : String := ""
deriving DecidableEq, Repr

/-- The function `inAllowList`. -/
def inAllowList (h : Host) (args : List String) (allow : List String) : Bool :=
  let joined := strings.ToLower h (strings.Join args " ")
  allow.any fun a =>
    joined == strings.ToLower h a || strings.HasPrefix joined (strings.ToLower h a ++ " ")

/-- The function `inListPrefix`. -/
def inListPrefix (h : Host) (cmd : String) (list : List String) : Bool :=
  list.any fun x => strings.HasPrefix cmd (strings.ToLower h x)

/-- The loop of `extractTargets` from position `i` on, where the remaining arguments
are `args[i:]`. -/
def extractTargetsFrom : List String → List String
  | [] => []
  | arg :: rest =>
    if arg = "--" then rest
    else if strings.HasPrefix arg "-" then extractTargetsFrom rest
    else arg :: extractTargetsFrom rest

/-- The function `extractTargets`: the loop starts at index 1. -/
def extractTargets (args : List String) : List String :=
  extractTargetsFrom (args.drop 1)

/-- The function `isMutatingCommand`. -/
def isMutatingCommand (cmd : String) : Bool :=
  if cmd = "rm" ∨ cmd = "rmdir" ∨ cmd = "mv" ∨ cmd = "chmod" ∨ cmd = "chown"
      ∨ cmd = "truncate" then true
  else if cmd = "git" then true
  else false

/-- The candidate path `touchesProtected` compares a resolved target with, for one
non-empty protected-path pattern `p`. -/
def protectedCandidate (h : Host) (p : String) : String :=
  let candidate :=
    if strings.HasPrefix p "~" then
      h.pathJoin [h.userHomeDir.getD "", strings.TrimPrefix p "~"]
    else p
  if strings.HasPrefix p "$" then
    let env := h.getenv (strings.TrimPrefix p "$")
    if env ≠ "" then env else candidate
  else candidate

/-- The function `touchesProtected`. -/
def touchesProtected (h : Host) (targets : List String) (ctx : contextinfo.Info)
    (protectedPaths : List String) : Bool :=
  targets.any fun t =>
    match contextinfo.ResolvePath h ctx.Cwd t with
    | none => false
    | some resolved =>
      protectedPaths.any fun p =>
        if p = "" then false else strings.HasPrefix resolved (protectedCandidate h p)

/-- The function `isOutsideRepo`. -/
def isOutsideRepo (h : Host) (targets : List String) (ctx : contextinfo.Info) : Bool :=
  if !ctx.InRepo then decide (targets.length > 0)
  else
    targets.any fun t =>
      match contextinfo.ResolvePath h ctx.Cwd t with
      | none => false
      | some resolved => !contextinfo.IsInsideRepo h ctx.RepoRoot resolved

/-- The function `hasForceFlag`. -/
def hasForceFlag (args : List String) : Bool :=
  args.any fun a => a == "-f" || a == "--force" || a == "--hard" || a == "-rf" || a == "-fr"

/-- The function `isNetworkEgress`. -/
def isNetworkEgress (cmd : String) (list : List String) : Bool :=
  list.any fun c => cmd == c

/-- The function `isPackageManager`. -/
def isPackageManager (cmd : String) (list : List String) : Bool :=
  list.any fun c => cmd == c

/-- The function `isFindDelete`. -/
def isFindDelete (h : Host) (args : List String) : Bool :=
  match args with
  | [] => false
  | a0 :: rest =>
    if strings.ToLower h a0 ≠ "find" then false
    else rest.any fun a => a == "-delete"

/-- The function `isGitClean`. -/
def isGitClean (args : List String) : Bool :=
  match args with
  | a0 :: a1 :: _ => a0 == "git" && a1 == "clean"
  | _ => false

/-- The function `isUnsafeGitClean`. -/
def isUnsafeGitClean (args : List String) : Bool :=
  if !isGitClean args then false
  else
    let hasDryRun := (args.drop 2).any fun a => a == "-n" || a == "--dry-run"
    let hasTarget := (args.drop 2).any fun a => !strings.HasPrefix a "-"
    let flags := strings.Join args " "
    if strings.Contains flags "-fdx" && !hasDryRun && !hasTarget then true else false

/-- The function `isUnsafeGitReset`. -/
def isUnsafeGitReset (args : List String) (ctx : contextinfo.Info) : Bool :=
  match args with
  | a0 :: a1 :: a2 :: _ =>
    if a0 = "git" ∧ a1 = "reset" ∧ a2 = "--hard" then
      if ctx.Git.Changed > 0 ∨ ctx.Git.Untracked > 0 then true else false
    else false
  | _ => false

/-- The function `hasFlag`. -/
def hasFlag (args : List String) (flag : String) : Bool :=
  args.any fun a => a == flag

/-- The function `isCatastrophicRm`. -/
def isCatastrophicRm (h : Host) (cmd : String) (args : List String)
    (ctx : contextinfo.Info) : Bool :=
  if cmd ≠ "rm" then false
  else if !(hasFlag args "-r" || hasFlag args "-rf" || hasFlag args "-fr") then false
  else
    (extractTargets args).any fun t =>
      match contextinfo.ResolvePath h ctx.Cwd t with
      | none => false
      | some resolved =>
        if resolved = "/" then true
        else if resolved = h.userHomeDir.getD "" then true
        else if ctx.InRepo && !contextinfo.IsInsideRepo h ctx.RepoRoot resolved then true
        else false

/-- The function `suggestAlternative`. -/
def suggestAlternative (cmd : String) (hint : Option preview.Hint) : String :=
  if cmd = "rm" then "add --dry-run or target fewer files"
  else if cmd = "git" then "run with --dry-run or limit path"
  else if cmd = "find" then "run find without -delete first"
  else if cmd = "npm" ∨ cmd = "pnpm" ∨ cmd = "yarn" ∨ cmd = "pip" ∨ cmd = "pip3" then
    "pin versions and review diff before install"
  else
    match hint with
    | some hnt => if hnt.Kind = preview.HintGitClean then "use git clean -ndx first" else ""
    | none => ""

/-- The risk signals of tier 3 of `Evaluate`, in the order the code appends them. -/
def riskSignals (h : Host) (args : List String) (ctx : contextinfo.Info)
    (p : policy.Policy) (lowerCmd : String) (targets : List String) : List String :=
  let riskSignals : List String := []
  let riskSignals :=
    if isMutatingCommand lowerCmd then riskSignals ++ ["mutating command"] else riskSignals
  let riskSignals :=
    if touchesProtected h targets ctx p.ProtectedPaths then
      riskSignals ++ ["touches protected path"]
    else riskSignals
  let riskSignals :=
    if hasForceFlag args then riskSignals ++ ["force flag present"] else riskSignals
  let riskSignals :=
    if isOutsideRepo h targets ctx && !p.Options.AllowOutsideRepo then
      riskSignals ++ ["outside repo root"]
    else riskSignals
  let riskSignals :=
    if isNetworkEgress lowerCmd p.NetworkEgress then
      riskSignals ++ ["network egress command"]
    else riskSignals
  let riskSignals :=
    if isPackageManager lowerCmd p.PackageManagers then
      riskSignals ++ ["package manager install/upgrade"]
    else riskSignals
  if isFindDelete h args then riskSignals ++ ["find -delete"] else riskSignals

/-- The preview hint of tier 3 of `Evaluate`: each later assignment overwrites the
earlier one. -/
def previewHint (h : Host) (args : List String) (lowerCmd : String)
    (targets : List String) : Option preview.Hint :=
  let previewHint : Option preview.Hint := none
  let previewHint :=
    if isFindDelete h args then
      some { Kind := preview.HintFindDelete, Args := args : preview.Hint }
    else previewHint
  let previewHint :=
    if lowerCmd = "rm" then
      some { Kind := preview.HintRM, Args := args, Targets := targets : preview.Hint }
    else previewHint
  if isGitClean args then
    some { Kind := preview.HintGitClean, Args := args : preview.Hint }
  else previewHint

/-- The function `Evaluate`: the policy ladder. -/
def Evaluate (h : Host) (args : List String) (ctx : contextinfo.Info)
    (p : policy.Policy) : Result :=
  match args with
  | [] => { Decision := DecisionBlock, Hard := true, Reasons := ["no command provided"] }
  | cmd :: _ =>
    let lowerCmd := strings.ToLower h cmd
    let targets := extractTargets args
    if inListPrefix h lowerCmd p.BlockCommands then
      { Decision := DecisionBlock, Hard := true,
        Reasons := ["command is in hard block list"] }
    else if isCatastrophicRm h lowerCmd args ctx then
      { Decision := DecisionBlock, Hard := true, Reasons := ["catastrophic rm target"],
        SaferAlternative := "narrow path or remove -rf" }
    else if isUnsafeGitReset args ctx then
      { Decision := DecisionBlock, Hard := true,
        Reasons := ["git reset --hard with dirty tree"],
        SaferAlternative := "commit or stash first" }
    else if isUnsafeGitClean args then
      { Decision := DecisionBlock, Hard := true,
        Reasons := ["git clean -fdx without dry-run"],
        SaferAlternative := "git clean -ndx" }
    else if inAllowList h args p.AllowCommands then
      { Decision := DecisionAllow, Reasons := ["allowlisted read-only command"] }
    else
      let signals := riskSignals h args ctx p lowerCmd targets
      let hint := previewHint h args lowerCmd targets
      if signals.length = 0 then
        { Decision := DecisionAllow, Reasons := ["no risk signals"] }
      else
        { Decision := DecisionConfirm, Reasons := ["risk signals present"],
          Signals := signals, PreviewHint := hint,
          SaferAlternative := suggestAlternative lowerCmd hint }

/-- Whether tier 1 of `Evaluate` (lines 34 to 58) answers: the vector is empty or one
of the four hard-block rules fires. -/
def hardBlocked (h : Host) (args : List String) (ctx : contextinfo.Info)
    (p : policy.Policy) : Bool :=
  match args with
  | [] => true
  | cmd :: _ =>
    inListPrefix h (strings.ToLower h cmd) p.BlockCommands ||
      isCatastrophicRm h (strings.ToLower h cmd) args ctx ||
      isUnsafeGitReset args ctx || isUnsafeGitClean args

/-- The targets of a command as the specification words them: of the arguments after
`args[0]`, those before the first `--` that do not start with `-`, followed by
everything after that `--`. -/
def extractTargetsSpec (args : List String) : List String :=
  ((args.drop 1).takeWhile fun a => a ≠ "--").filter (fun a => !strings.HasPrefix a "-") ++
    ((args.drop 1).dropWhile fun a => a ≠ "--").drop 1

/-- What a protected-path pattern stands for where the specification says so: a pattern
that starts with `~` for the home directory joined with the rest of the pattern, a
pattern `$NAME` for the value of the environment variable `NAME` when that value is not
empty, and a pattern that starts with neither for itself.  For a pattern `$NAME` whose
variable has no value nothing is said. -/
def expandPatternSpec (h : Host) (p : String) : Option String :=
  match p.data with
  | '~' :: rest => some (h.pathJoin [h.userHomeDir.getD "", String.mk rest])
  | '$' :: name =>
    if h.getenv (String.mk name) = "" then none else some (h.getenv (String.mk name))
  | _ => some p

/-- The path of `path` relative to the repository root, when there is a root and
`filepath.Abs` and `filepath.Rel` answer. -/
def relativeToRoot (h : Host) (repoRoot path : String) : Option String :=
  if repoRoot = "" then none
  else
    (h.abs repoRoot).bind fun absRepo =>
      (h.abs path).bind fun absPath => h.rel absRepo absPath

/-- Whether `path` is within the repository root, as the comment over `IsInsideRepo`
words it: its path relative to the root is known and does not leave the root, that is,
it is neither `..` nor does it start with `../`. -/
def withinRepoSpec (h : Host) (repoRoot path : String) : Bool :=
  match relativeToRoot h repoRoot path with
  | none => false
  | some rel => !(rel == ".." || strings.HasPrefix rel "../")

/-- Whether the path of `path` relative to the root starts with the two characters `..`
without leaving the root, as for a file named `..foo` in the root. -/
def dotDotName (h : Host) (repoRoot path : String) : Bool :=
  match relativeToRoot h repoRoot path with
  | none => false
  | some rel => strings.HasPrefix rel ".." && !(rel == ".." || strings.HasPrefix rel "../")

/-- The catastrophic-rm rule as the specification words it, with `some` for `every`: an
argument is one of the tokens `-r`, `-rf` and `-fr`, and a target resolves to the
filesystem root, to the home directory (the empty string when `os.UserHomeDir` fails) or,
inside a repository, to a path that is not within the repository root. -/
def catastrophicRmSpec (h : Host) (args : List String) (ctx : contextinfo.Info) : Bool :=
  decide (("-r" ∈ args ∨ "-rf" ∈ args ∨ "-fr" ∈ args) ∧
    ∃ t ∈ extractTargetsSpec args, ∃ r ∈ contextinfo.ResolvePath h ctx.Cwd t,
      r = "/" ∨ r = h.userHomeDir.getD "" ∨
        (ctx.InRepo = true ∧ withinRepoSpec h ctx.RepoRoot r = false))

/-- The names of the mutating commands, as the specification lists them. -/
def mutatingNames : List String :=
  ["rm", "rmdir", "mv", "chmod", "chown", "truncate", "git"]

/-- The known force flags, as the specification lists them. -/
def forceFlags : List String :=
  ["-f", "--force", "--hard", "-rf", "-fr"]

/-- The seven risk conditions of tier 3 of `Evaluate`, each with its tag, in the order
of the specification, stated over list membership and the resolved targets and not
through the functions of the classifier: the command is one of the mutating commands; a
target resolves to a path that has, as a prefix, what a non-empty protected-path pattern
stands for (a pattern for which `expandPatternSpec` says nothing standing for itself); an
argument is a known force flag; the policy does not tolerate targets outside the
repository and, inside a repository, a target resolves to a path outside the root, read
as `filepath.Rel` shows it (the path relative to the root is unknown or starts with
`..`), or, outside a repository, there is a target; the command is an entry of the
network-egress list; the command is an entry of the package-manager list; the command is
`find` and a later argument is `-delete`. -/
def signalConditions (h : Host) (args : List String) (ctx : contextinfo.Info)
    (p : policy.Policy) (lowerCmd : String) (targets : List String) :
    List (Bool × String) :=
  [(decide (lowerCmd ∈ mutatingNames), "mutating command"),
   (decide (∃ t ∈ targets, ∃ r ∈ contextinfo.ResolvePath h ctx.Cwd t,
      ∃ pat ∈ p.ProtectedPaths, pat ≠ "" ∧
        strings.HasPrefix r ((expandPatternSpec h pat).getD pat) = true),
    "touches protected path"),
   (decide (∃ a ∈ args, a ∈ forceFlags), "force flag present"),
   (decide ((if ctx.InRepo = true then
        ∃ t ∈ targets, ∃ r ∈ contextinfo.ResolvePath h ctx.Cwd t,
          ∀ rel ∈ relativeToRoot h ctx.RepoRoot r, strings.HasPrefix rel ".." = true
      else targets ≠ []) ∧ p.Options.AllowOutsideRepo = false),
    "outside repo root"),
   (decide (lowerCmd ∈ p.NetworkEgress), "network egress command"),
   (decide (lowerCmd ∈ p.PackageManagers), "package manager install/upgrade"),
   (decide (strings.ToLower h (args.headD "") = "find" ∧ "-delete" ∈ args.tail),
    "find -delete")]

/-- The tags of the risk conditions that hold, in the order of the specification. -/
def signalsSpec (h : Host) (args : List String) (ctx : contextinfo.Info)
    (p : policy.Policy) (lowerCmd : String) (targets : List String) : List String :=
  ((signalConditions h args ctx p lowerCmd targets).filter fun c => c.1).map fun c => c.2

end classifier

/-! ## Package `ui` -/

namespace ui

/-- The function `Confirm`; `line` is the line `ReadString` returned, `none` when it
returned an error. -/
def Confirm (h : Host) (line : Option String) : Bool :=
  match line with
  | none => false
  | some line =>
    let line := strings.TrimSpace (strings.ToLower h line)
    line == "y" || line == "yes"

/-- The function `RequirePhrase`; `line` is the line `ReadString` returned, `none` when
it returned an error. -/
def RequirePhrase (line : Option String) (phrase : String) : Bool :=
  match line with
  | none => false
  | some line => strings.TrimSpace line == phrase

end ui

/-! ## Package `arbiter` -/

namespace arbiter

/-- The struct `Input`. -/
structure Input where
  Command : String
  Signals : List String
  Reasons : List String
deriving DecidableEq, Repr

/-- The struct `Decision`. -/
structure Decision where
  Decision : classifier.DecisionType
  Reason : String
deriving DecidableEq, Repr

/-- The function `Decide`: the stub always confirms. -/
def Decide (_in : Input) : Decision :=
  { Decision := classifier.DecisionConfirm, Reason := "stub arbiter" }

end arbiter

/-! ## Package `audit`: entries and the ledger -/

namespace audit

/-- The struct `PreviewRecord`. -/
structure PreviewRecord where
  Count : Int
  Sample : List String
  Note : String
  Err : String
deriving DecidableEq, Repr

/-- The struct `Entry`; the timestamp is a reading of the clock. -/
structure Entry where
  ID : String
  Timestamp : Nat
  Command : String
  Cwd : String
  RepoRoot : String
  Git : contextinfo.GitSummary
  Decision : String
  Hard : Bool
  Signals : List String
  Reasons : List String
  SaferAlternative : String
  Preview : Option PreviewRecord := none
  ApprovedBy : String := ""
  BreakGlass : Bool := false
  BreakGlassReason : String := ""
  Outcome : String := ""
  ExitCode : Int := 0
  Error : String := ""
deriving DecidableEq, Repr

/-- The struct `Logger`. -/
structure Logger where
  path : String
deriving DecidableEq, Repr

end audit

/-! ## The world one invocation of the runner interacts with -/

/-- The result of `cmd.Run()` on the wrapped command. -/
inductive CmdResult where
  /-- The child exited with status 0: the error is nil. -/
  | success
  /-- The error is an `*exec.ExitError`; `code` is what its `ExitCode()` returns. -/
  | exitError (code : Int) (msg : String)
  /-- Any other error, such as a binary that cannot be started. -/
  | failure (msg : String)
deriving DecidableEq, Repr

/-- What the standard library guarantees about the result of `cmd.Run()`: it is an
`*exec.ExitError` only for a child that did not succeed, whose exit code is not 0, and
the text of an error is not empty. -/
def CmdResult.wellFormed : CmdResult → Bool
  | .success => true
  | .exitError code msg => code ≠ 0 && msg ≠ ""
  | .failure msg => msg ≠ ""

/-- Everything one invocation of `runner.Run` obtains from outside the program.  Each
field is the answer the named call gives; the prompts, the preview engine and the child
process are taken to return. -/
structure World where
  /-- The machine the program runs on. -/
  host : Host
  /-- The result of `contextinfo.Detect()`. -/
  detect : Except String contextinfo.Info
  /-- Whether `os.Stat` on the path returns a nil error. -/
  statOk : String → Bool
  /-- The result of `policy.Load` on the path. -/
  loadPolicy : String → Except String policy.Policy
  /-- The error `os.MkdirAll` returns for the directory, if any. -/
  mkdirAll : String → Option String
  /-- The configured secondary arbiter, called as `arbiter.Decide`. -/
  arbiterDecide : arbiter.Input → arbiter.Decision
  /-- The identifier `uuid.New().String()` yields. -/
  newUUID : String
  /-- The clock reading `time.Now().UTC()`. -/
  now : Nat
  /-- The result of the call of `preview.Run` in `Run`, which is made on the hints of
  `Evaluate` only; on these the preview engine does not panic. -/
  previewRun : preview.Hint → contextinfo.Info → Int → preview.Result
  /-- The line the operator types at the confirmation prompt, `none` on a read error. -/
  confirmLine : Option String
  /-- The line the operator types at the break-glass prompt, `none` on a read error. -/
  phraseLine : Option String
  /-- The result of running the argument vector as a child process in the directory. -/
  cmdRun : List String → String → CmdResult
  /-- The error that opening the ledger at the path and encoding the entry into it
  returns, if any. -/
  appendEntry : String → audit.Entry → Option String

namespace audit

/-- The function `New`. -/
def New (w : World) (repoRoot : String) : Except String Logger :=
  let located : Except String String :=
    if repoRoot ≠ "" then .ok (w.host.pathJoin [repoRoot, ".clash", "audit.log"])
    else
      match w.host.userHomeDir with
      | none => .error "$HOME is not defined"
      | some home => .ok (w.host.pathJoin [home, ".clash", "audit.log"])
  match located with
  | .error e => .error e
  | .ok path =>
    match w.mkdirAll (w.host.pathDir path) with
    | some e => .error e
    | none => .ok { path := path }

/-- The method `Logger.Record`: the error it returns, if any. -/
def Record (w : World) (l : Logger) (entry : Entry) : Option String :=
  w.appendEntry l.path entry

end audit

/-! ## Package `runner` -/

namespace runner

/-- The struct `RunOptions`. -/
structure RunOptions where
  PolicyPath : String := ""
  AutoYes : Bool := false
  BreakGlass : Bool := false
  BreakGlassReason : String := ""
deriving DecidableEq, Repr

/-- How a call ends: with the pair `(int, error)` it returns, or in a Go panic. -/
inductive Return where
  | value (code : Int) (err : Option String)
  | panic
deriving DecidableEq, Repr

/-- What one call of `Run` does: how it ends, the argument vectors it ran as child
processes, the entries it passed to `Logger.Record`, in order, and what each of these
calls of `Record` returned. -/
structure Trace where
  ret : Return
  executions : List (List String) := []
  recorded : List audit.Entry := []
  recordResults : List (Option String) := []
deriving DecidableEq, Repr

/-- The function `execute`: `none` is the panic of `args[0]` on an empty vector. -/
def execute (w : World) (args : List String) (ctx : contextinfo.Info) :
    Option (Int × Option String) :=
  match args with
  | [] => none
  | name :: rest =>
    match w.cmdRun (name :: rest) ctx.Cwd with
    | .exitError code msg => some (code, some msg)
    | .failure msg => some (1, some msg)
    | .success => some (0, none)

/-- Lines 37 to 43 of `Run`: the policy path handed to `policy.Load`. -/
def policyPath (w : World) (opts : RunOptions) (ctx : contextinfo.Info) : String :=
  if opts.PolicyPath = "" then
    let candidate := w.host.pathJoin [ctx.RepoRoot, "clash.yaml"]
    if w.statOk candidate then candidate else opts.PolicyPath
  else opts.PolicyPath

/-- Lines 56 to 67 of `Run`: the arbitration step, with `arbiterDecide` in the place of
`arbiter.Decide`. -/
def arbitrate (arbiterDecide : arbiter.Input → arbiter.Decision) (args : List String)
    (pol : policy.Policy) (result : classifier.Result) : classifier.Result :=
  if pol.Arbiter.Enabled && result.Decision == classifier.DecisionConfirm then
    let arb := arbiterDecide
      { Command := strings.Join args " ", Signals := result.Signals,
        Reasons := result.Reasons }
    if arb.Decision = classifier.DecisionBlock then
      { result with
        Decision := classifier.DecisionBlock, Hard := false,
        Reasons := result.Reasons ++ ["arbiter: " ++ arb.Reason] }
    else result
  else result

/-- The verdict `Run` acts on: the one of `Evaluate`, after the arbitration step. -/
def verdict (w : World) (args : List String) (ctx : contextinfo.Info)
    (pol : policy.Policy) : classifier.Result :=
  arbitrate w.arbiterDecide args pol (classifier.Evaluate w.host args ctx pol)

/-- Lines 69 to 81 of `Run`: the audit entry as first filled in. -/
def newEntry (w : World) (args : List String) (ctx : contextinfo.Info)
    (result : classifier.Result) : audit.Entry :=
  { ID := w.newUUID, Timestamp := w.now, Command := strings.Join args " ",
    Cwd := ctx.Cwd, RepoRoot := ctx.RepoRoot, Git := ctx.Git,
    Decision := result.Decision, Hard := result.Hard, Signals := result.Signals,
    Reasons := result.Reasons, SaferAlternative := result.SaferAlternative }

/-- Lines 83 to 90 of `Run`: the preview, when the verdict carries a hint, and the
entry with its summary. -/
def withPreview (w : World) (ctx : contextinfo.Info) (pol : policy.Policy)
    (result : classifier.Result) (auditEntry : audit.Entry) :
    Option preview.Result × audit.Entry :=
  match result.PreviewHint with
  | none => (none, auditEntry)
  | some hint =>
    let pr := w.previewRun hint ctx pol.Thresholds.PreviewSample
    match auditEntry.Preview with
    | none =>
      (some pr, { auditEntry with
        Preview := some { Count := pr.Count, Sample := pr.Sample, Note := pr.Note,
                          Err := pr.Err } })
    | some _ => (some pr, auditEntry)

/-- A call `logger.Record(entry)` written as a statement, followed by a return: the
entry goes to the ledger, the error `Record` returns is assigned to nothing, and the call
of `Run` ends with `ret` after running `executions`. -/
def recordAndReturn (w : World) (logger : audit.Logger) (entry : audit.Entry)
    (executions : List (List String)) (ret : Return) : Trace :=
  { ret := ret, executions := executions, recorded := [entry],
    recordResults := [audit.Record w logger entry] }

/-- Lines 159 to 168 of `Run`: the execution step and the record that follows it. -/
def executeAndRecord (w : World) (args : List String) (ctx : contextinfo.Info)
    (logger : audit.Logger) (auditEntry : audit.Entry) : Trace :=
  match execute w args ctx with
  | none => { ret := .panic }
  | some (exitCode, runErr) =>
    let auditEntry := { auditEntry with ExitCode := exitCode }
    let auditEntry :=
      match runErr with
      | some msg => { auditEntry with Outcome := "failed", Error := msg }
      | none => { auditEntry with Outcome := "executed" }
    recordAndReturn w logger auditEntry [args] (.value exitCode runErr)

/-- Lines 147 to 169 of `Run`: the break-glass check, then the execution step. -/
def finish (w : World) (args : List String) (opts : RunOptions) (ctx : contextinfo.Info)
    (logger : audit.Logger) (auditEntry : audit.Entry) : Trace :=
  if opts.BreakGlass then
    let phrase := "break glass for clash"
    if !ui.RequirePhrase w.phraseLine phrase then
      recordAndReturn w logger { auditEntry with Outcome := "cancelled" } []
        (.value 1 (some "break-glass phrase mismatch"))
    else
      executeAndRecord w args ctx logger
        { auditEntry with BreakGlass := true, BreakGlassReason := opts.BreakGlassReason }
  else
    executeAndRecord w args ctx logger auditEntry

/-- Lines 92 to 145 of `Run`: the switch on the decision, followed by `finish` on the
paths that leave the switch. -/
def decideAndFinish (w : World) (args : List String) (opts : RunOptions)
    (ctx : contextinfo.Info) (logger : audit.Logger) (result : classifier.Result)
    (auditEntry : audit.Entry) : Trace :=
  if result.Decision = classifier.DecisionBlock then
    recordAndReturn w logger { auditEntry with Outcome := "blocked" } []
      (.value 1 (some "command blocked"))
  else if result.Decision = classifier.DecisionConfirm then
    let approved := opts.AutoYes
    let approver := if approved then "--yes" else ""
    let answer := if !approved then ui.Confirm w.host w.confirmLine else approved
    let approver := if !approved && answer then "user" else approver
    if !answer then
      recordAndReturn w logger { auditEntry with Outcome := "cancelled" } []
        (.value 1 (some "cancelled"))
    else
      finish w args opts ctx logger { auditEntry with ApprovedBy := approver }
  else
    finish w args opts ctx logger auditEntry

/-- The function `Run`.  Console output is not part of the trace. -/
def Run (w : World) (args : List String) (opts : RunOptions) : Trace :=
  match w.detect with
  | .error e => { ret := .value 1 (some e) }
  | .ok ctx =>
    match w.loadPolicy (policyPath w opts ctx) with
    | .error e => { ret := .value 1 (some e) }
    | .ok pol =>
      match audit.New w ctx.RepoRoot with
      | .error e => { ret := .value 1 (some e) }
      | .ok logger =>
        let result := verdict w args ctx pol
        let auditEntry := newEntry w args ctx result
        let (_previewRes, auditEntry) := withPreview w ctx pol result auditEntry
        decideAndFinish w args opts ctx logger result auditEntry

end runner

/-! ## A sample host for concrete evaluations -/

/-- A host without symbolic links whose home directory is `/home/op`: paths join with a
slash, a path is absolute when it starts with a slash, and the path of `target` relative
to `base` is `.` for the base itself, the remainder for a path below it and a path
starting with `..` otherwise. -/
def sampleHost : Host where
  unicodeToLower := fun c => c
  userHomeDir := some "/home/op"
  getenv := fun _ => ""
  pathJoin := fun elems => strings.Join (elems.filter fun e => e ≠ "") "/"
  isAbs := fun p => strings.HasPrefix p "/"
  evalSymlinks := fun p => some p
  abs := fun p => some p
  rel := fun base target =>
    if target = base then some "."
    else if strings.HasPrefix target (base ++ "/") then
      some (strings.TrimPrefix target (base ++ "/"))
    else some ("../" ++ target)
  pathDir := fun p =>
    String.mk ((p.data.reverse.dropWhile fun c => c ≠ '/').drop 1).reverse

/-- A repository at `/repo` with a clean working tree, with the working directory at
its root. -/
def sampleCtx : contextinfo.Info :=
  { Cwd := "/repo", RepoRoot := "/repo", InRepo := true,
    Git := { Changed := 0, Untracked := 0 } }

/-- A small policy: `ls` and `git status` are allowed, `mkfs` is blocked. -/
def samplePolicy : policy.Policy :=
  { Thresholds := { DeleteCount := 20, ModifyCount := 50, PreviewSample := 5 },
    ProtectedPaths := ["/etc", "~/.ssh"],
    AllowCommands := ["ls", "git status"],
    BlockCommands := ["mkfs"],
    ConfirmCommands := [],
    NetworkEgress := ["curl", "wget"],
    PackageManagers := ["npm", "pip"],
    Arbiter := { Enabled := false, Provider := "", Model := "", APIKeyEnv := "" },
    Options := { AllowOutsideRepo := false, RequireCleanTreeForBreakGlass := false } }

/-- The policy of the sample with `ls` on the block list as well as on the allow list. -/
def lsBlockedPolicy : policy.Policy :=
  { samplePolicy with BlockCommands := ["ls"] }

/-- The sample repository with three changed files. -/
def dirtyCtx : contextinfo.Info :=
  { sampleCtx with Git := { Changed := 3, Untracked := 0 } }

/-- The policy of the sample with the secondary arbiter enabled. -/
def arbiterPolicy : policy.Policy :=
  { samplePolicy with
    Arbiter := { Enabled := true, Provider := "local", Model := "m", APIKeyEnv := "" } }

/-- A world in which setup succeeds in the sample repository with the sample policy,
the arbiter is the stub, the operator declines the confirmation prompt and types
something else than the break-glass phrase, the wrapped command exits with status 0 and
the ledger accepts every entry. -/
def sampleWorld : World where
  host := sampleHost
  detect := .ok sampleCtx
  statOk := fun _ => false
  loadPolicy := fun _ => .ok samplePolicy
  mkdirAll := fun _ => none
  arbiterDecide := arbiter.Decide
  newUUID := "0b0e7a52-6a3f-4c55-9a51-2f3d1c9e8a10"
  now := 1762214400
  previewRun := fun _ _ _ => { Note := "sample preview" }
  confirmLine := some "n\n"
  phraseLine := some "break glass\n"
  cmdRun := fun _ _ => .success
  appendEntry := fun _ _ => none

/-- The sample world with a policy that enables the arbiter and an arbiter that answers
BLOCK. -/
def blockingArbiterWorld : World :=
  { sampleWorld with
    loadPolicy := fun _ => .ok arbiterPolicy
    arbiterDecide := fun _ => { Decision := classifier.DecisionBlock, Reason := "too risky" } }

/-- The sample world with an operator who answers the confirmation prompt with `yes`. -/
def approvingWorld : World :=
  { sampleWorld with confirmLine := some "Yes\n" }

/-- The sample world with a ledger that cannot be written: every append fails. -/
def brokenLedgerWorld : World :=
  { sampleWorld with
    appendEntry := fun _ _ => some "write .clash/audit.log: no space left on device" }

/-- The sample world with an operator who types the break-glass phrase exactly and
answers the confirmation prompt with `y`. -/
def breakGlassYesWorld : World :=
  { sampleWorld with
    confirmLine := some "y\n"
    phraseLine := some "break glass for clash\n" }

/-- The sample world with an operator who types the break-glass phrase exactly and
answers the confirmation prompt with `n`. -/
def breakGlassNoWorld : World :=
  { sampleWorld with
    confirmLine := some "n\n"
    phraseLine := some "break glass for clash\n" }

/-- The sample world with a wrapped command that exits with status 3. -/
def failingCommandWorld : World :=
  { approvingWorld with cmdRun := fun _ _ => .exitError 3 "exit status 3" }

/-- A machine on which `/repo/foo` exists, `find` prints two paths and `git` prints one
line. -/
def sampleTools : preview.Tools where
  statOk := fun path => path == "/repo/foo"
  output := fun name _ _ =>
    if name = "find" then .ok "./a.tmp\n./b.tmp\n"
    else if name = "git" then .ok "Would remove build/\n"
    else .error "exec: not found"

/-- A git-clean hint whose argument vector has one token. -/
def shortGitCleanHint : preview.Hint :=
  { Kind := preview.HintGitClean, Args := ["git"] }

/-- The command `find . -name *.tmp -exec rm {} ; -delete`. -/
def findExecDelete : List String :=
  ["find", ".", "-name", "*.tmp", "-exec", "rm", "\x7b\x7d", ";", "-delete"]

/-- An override that sets one threshold, replaces the allow list, names an arbiter
provider without enabling it and sets no option. -/
def sampleOverride : policy.Policy :=
  { Thresholds := { DeleteCount := 0, ModifyCount := 7, PreviewSample := 0 },
    ProtectedPaths := [],
    AllowCommands := ["pwd"],
    BlockCommands := [],
    ConfirmCommands := [],
    NetworkEgress := [],
    PackageManagers := [],
    Arbiter := { Enabled := false, Provider := "local", Model := "", APIKeyEnv := "" },
    Options := { AllowOutsideRepo := false, RequireCleanTreeForBreakGlass := false } }

/-- The sample policy with both options set. -/
def strictPolicy : policy.Policy :=
  { samplePolicy with
    Options := { AllowOutsideRepo := true, RequireCleanTreeForBreakGlass := true } }

/-- A machine on which `/repo/foo` exists and `find` succeeds without printing a path. -/
def quietFindTools : preview.Tools where
  statOk := fun path => path == "/repo/foo"
  output := fun _ _ _ => .ok ""

/-- The find-delete hint of `find . -name core -delete`. -/
def findCoreHint : preview.Hint :=
  { Kind := preview.HintFindDelete, Args := ["find", ".", "-name", "core", "-delete"] }

/-- The rm hint of `rm foo`. -/
def rmFooHint : preview.Hint :=
  { Kind := preview.HintRM, Args := ["rm", "foo"], Targets := ["foo"] }

/-- A path with every run of slashes reduced to one slash. -/
def squeezeSlashes : List Char → List Char
  | [] => []
  | [c] => [c]
  | c :: d :: rest =>
    if c = '/' ∧ d = '/' then squeezeSlashes (d :: rest) else c :: squeezeSlashes (d :: rest)

/-- The sample host with `HOME` set to `/home/op` in the environment and with a
`filepath.Join` that leaves no doubled slash in its result. -/
def envHost : Host :=
  { sampleHost with
    getenv := fun name => if name = "HOME" then "/home/op" else ""
    pathJoin := fun elems =>
      String.mk (squeezeSlashes (strings.Join (elems.filter fun e => e ≠ "") "/").data) }

/-- A repository at the home directory `/home/op`, with the working directory at its
root. -/
def homeCtx : contextinfo.Info :=
  { Cwd := "/home/op", RepoRoot := "/home/op", InRepo := true,
    Git := { Changed := 0, Untracked := 0 } }

/-- A machine on which no child process can be started. -/
def brokenTools : preview.Tools where
  statOk := fun _ => false
  output := fun _ _ _ => .error "executable file not found"

/-- The git-clean hint of `git clean -f -d`. -/
def gitCleanHint : preview.Hint :=
  { Kind := preview.HintGitClean, Args := ["git", "clean", "-f", "-d"] }

/-! # Theorems -/

open classifier runner

/-! ## Auxiliary facts about the string functions -/

theorem strings.ToLower_git (h : Host) : strings.ToLower h "git" = "git" := rfl

theorem strings.containsChars_iff (sub : List Char) :
    ∀ s : List Char, strings.containsChars s sub = true ↔ sub <:+: s
  | [] => by
    cases sub <;> simp [strings.containsChars, List.isPrefixOf]
  | c :: cs => by
    rw [List.infix_cons_iff, ← strings.containsChars_iff sub cs]
    simp [strings.containsChars]

theorem strings.infix_joinChars (sep x : List Char) :
    ∀ xs : List (List Char), x ∈ xs → x <:+: strings.joinChars sep xs
  | [], hx => by simp at hx
  | [y], hx => by
    simp at hx
    subst hx
    exact List.infix_refl _
  | y :: z :: rest, hx => by
    rw [List.mem_cons] at hx
    show x <:+: y ++ sep ++ strings.joinChars sep (z :: rest)
    rcases hx with hx | hx
    · subst hx
      rw [List.append_assoc]
      exact (List.prefix_append _ _).isInfix
    · exact (strings.infix_joinChars sep x (z :: rest) hx).trans (List.suffix_append _ _).isInfix

theorem strings.Contains_Join_of_mem (elems : List String) (sep x : String) (hx : x ∈ elems) :
    strings.Contains (strings.Join elems sep) x = true := by
  unfold strings.Contains strings.Join
  rw [strings.containsChars_iff]
  exact strings.infix_joinChars _ _ _ (List.mem_map_of_mem _ hx)

/-! ## The hard-block tier of the ladder -/

/-- C1: when the lowercased command name has a lowercased block-list entry as a prefix,
`Evaluate` returns the hard BLOCK with the single reason `command is in hard block list`,
whatever the context, the rest of the policy (its allow list included) and the other
arguments are. -/
theorem evaluate_block_list_wins (h : Host) (ctx : contextinfo.Info) (p : policy.Policy)
    (cmd : String) (rest : List String)
    (hblock : ∃ x ∈ p.BlockCommands,
      strings.HasPrefix (strings.ToLower h cmd) (strings.ToLower h x) = true) :
    Evaluate h (cmd :: rest) ctx p =
      { Decision := DecisionBlock, Hard := true,
        Reasons := ["command is in hard block list"], Signals := [],
        PreviewHint := none, SaferAlternative := "" } := by
  have hin : inListPrefix h (strings.ToLower h cmd) p.BlockCommands = true := by
    simpa [inListPrefix] using hblock
  simp [Evaluate, hin]

/-- With `ls` on both lists of the policy, `LS -la` matches the allow list and is blocked. -/
theorem evaluate_block_list_wins_witness :
    inAllowList sampleHost ["LS", "-la"] lsBlockedPolicy.AllowCommands = true ∧
    Evaluate sampleHost ["LS", "-la"] sampleCtx lsBlockedPolicy =
      { Decision := "BLOCK", Hard := true, Reasons := ["command is in hard block list"] } :=
  ⟨by decide,
   evaluate_block_list_wins sampleHost sampleCtx lsBlockedPolicy "LS" ["-la"]
     ⟨"ls", by decide, by decide⟩⟩

theorem isCatastrophicRm_of_root (h : Host) (ctx : contextinfo.Info) (args : List String)
    (hflag : "-r" ∈ args ∨ "-rf" ∈ args ∨ "-fr" ∈ args)
    (hroot : ∃ t ∈ extractTargets args, contextinfo.ResolvePath h ctx.Cwd t = some "/") :
    isCatastrophicRm h "rm" args ctx = true := by
  obtain ⟨t, ht, hres⟩ := hroot
  have hf : (hasFlag args "-r" || hasFlag args "-rf" || hasFlag args "-fr") = true := by
    rcases hflag with h1 | h1 | h1 <;> simp [hasFlag, h1]
  simp only [isCatastrophicRm, hf, ne_eq, not_true_eq_false, if_false, Bool.not_true,
    Bool.false_eq_true, List.any_eq_true]
  exact ⟨t, ht, by simp [hres]⟩

/-- C2: an `rm` command that carries a token `-r`, `-rf` or `-fr` and has a target
resolving to `/` is answered with BLOCK and hard=true; when the block list does not match
`rm`, the verdict is the catastrophic-rm one, with the reason `catastrophic rm target`
and a non-empty safer alternative. -/
theorem evaluate_rm_root_blocked (h : Host) (ctx : contextinfo.Info) (p : policy.Policy)
    (cmd : String) (rest : List String)
    (hrm : strings.ToLower h cmd = "rm")
    (hflag : "-r" ∈ cmd :: rest ∨ "-rf" ∈ cmd :: rest ∨ "-fr" ∈ cmd :: rest)
    (hroot : ∃ t ∈ extractTargets (cmd :: rest),
      contextinfo.ResolvePath h ctx.Cwd t = some "/") :
    (Evaluate h (cmd :: rest) ctx p).Decision = DecisionBlock ∧
    (Evaluate h (cmd :: rest) ctx p).Hard = true ∧
    (inListPrefix h "rm" p.BlockCommands = false →
      Evaluate h (cmd :: rest) ctx p =
        { Decision := DecisionBlock, Hard := true, Reasons := ["catastrophic rm target"],
          Signals := [], PreviewHint := none,
          SaferAlternative := "narrow path or remove -rf" } ∧
      (Evaluate h (cmd :: rest) ctx p).SaferAlternative ≠ "") := by
  have hcat := isCatastrophicRm_of_root h ctx (cmd :: rest) hflag hroot
  cases hb : inListPrefix h "rm" p.BlockCommands <;>
    simp [Evaluate, hrm, hb, hcat]

/-- The command `rm -rf /` in the sample repository gets the catastrophic-rm BLOCK. -/
theorem evaluate_rm_root_blocked_witness :
    Evaluate sampleHost ["rm", "-rf", "/"] sampleCtx samplePolicy =
      { Decision := "BLOCK", Hard := true, Reasons := ["catastrophic rm target"],
        SaferAlternative := "narrow path or remove -rf" } :=
  ((evaluate_rm_root_blocked sampleHost sampleCtx samplePolicy "rm" ["-rf", "/"]
    rfl (Or.inr (Or.inl (by decide))) ⟨"/", by decide, by decide⟩).2.2 (by decide)).1

theorem isGitClean_cons (rest : List String) :
    isGitClean ("git" :: "clean" :: rest) = true := by
  simp [isGitClean]

theorem isUnsafeGitClean_of_fdx (rest : List String) (hfdx : "-fdx" ∈ rest)
    (hdry : ∀ a ∈ rest, a ≠ "-n" ∧ a ≠ "--dry-run")
    (hflags : ∀ a ∈ rest, strings.HasPrefix a "-" = true) :
    isUnsafeGitClean ("git" :: "clean" :: rest) = true := by
  have hc : strings.Contains (strings.Join ("git" :: "clean" :: rest) " ") "-fdx" = true :=
    strings.Contains_Join_of_mem _ _ _ (by simp [hfdx])
  have h1 : (rest.any fun a => a == "-n" || a == "--dry-run") = false := by
    rw [List.any_eq_false]
    intro a ha
    simp [(hdry a ha).1, (hdry a ha).2]
  have h2 : (rest.any fun a => !strings.HasPrefix a "-") = false := by
    rw [List.any_eq_false]
    intro a ha
    simp [hflags a ha]
  simp [isUnsafeGitClean, isGitClean_cons, hc, h1, h2]

theorem isUnsafeGitClean_dry_or_path (rest : List String)
    (hex : ∃ a ∈ rest, a = "-n" ∨ a = "--dry-run" ∨ strings.HasPrefix a "-" = false) :
    isUnsafeGitClean ("git" :: "clean" :: rest) = false := by
  obtain ⟨a, ha, hcase⟩ := hex
  simp only [isUnsafeGitClean, isGitClean_cons, Bool.not_true, Bool.false_eq_true, if_false,
    List.drop_succ_cons, List.drop_zero]
  rcases hcase with h1 | h1 | h1
  · have : (rest.any fun a => a == "-n" || a == "--dry-run") = true :=
      List.any_eq_true.2 ⟨a, ha, by simp [h1]⟩
    simp [this]
  · have : (rest.any fun a => a == "-n" || a == "--dry-run") = true :=
      List.any_eq_true.2 ⟨a, ha, by simp [h1]⟩
    simp [this]
  · have : (rest.any fun a => !strings.HasPrefix a "-") = true :=
      List.any_eq_true.2 ⟨a, ha, by simp [h1]⟩
    simp [this]

theorem isCatastrophicRm_git (h : Host) (args : List String) (ctx : contextinfo.Info) :
    isCatastrophicRm h "git" args ctx = false := by
  simp [isCatastrophicRm]

theorem isUnsafeGitReset_clean (rest : List String) (ctx : contextinfo.Info) :
    isUnsafeGitReset ("git" :: "clean" :: rest) ctx = false := by
  cases rest <;> simp [isUnsafeGitReset]

theorem isUnsafeGitClean_reset (rest : List String) :
    isUnsafeGitClean ("git" :: "reset" :: rest) = false := by
  simp [isUnsafeGitClean, isGitClean]

theorem isUnsafeGitReset_hard (rest : List String) (ctx : contextinfo.Info) :
    isUnsafeGitReset ("git" :: "reset" :: "--hard" :: rest) ctx =
      decide (ctx.Git.Changed > 0 ∨ ctx.Git.Untracked > 0) := by
  by_cases hd : ctx.Git.Changed > 0 ∨ ctx.Git.Untracked > 0 <;> simp [isUnsafeGitReset, hd]

theorem mem_ite_append {c : Prop} [Decidable c] (x y : String) (l : List String)
    (hx : x ∈ l) : x ∈ (if c then l ++ [y] else l) := by
  split_ifs <;> simp [hx]

theorem mutating_mem_riskSignals (h : Host) (args : List String) (ctx : contextinfo.Info)
    (p : policy.Policy) (targets : List String) :
    "mutating command" ∈ riskSignals h args ctx p "git" targets := by
  unfold riskSignals
  iterate 6 apply mem_ite_append
  simp [isMutatingCommand]

/-- C3: `git clean` with a `-fdx` argument, no `-n`/`--dry-run` argument and no argument
that does not start with `-` is answered with BLOCK and hard=true, and when the block
list does not match `git` the verdict is the git-clean one (reason
`git clean -fdx without dry-run`, safer alternative `git clean -ndx`); with a `-n` or
`--dry-run` argument or a path argument after `git clean` the git-clean rule does not
fire and the verdict is not the git-clean one. -/
theorem evaluate_git_clean_fdx (h : Host) (ctx : contextinfo.Info) (p : policy.Policy)
    (rest : List String) :
    (("-fdx" ∈ rest ∧ (∀ a ∈ rest, a ≠ "-n" ∧ a ≠ "--dry-run") ∧
        (∀ a ∈ rest, strings.HasPrefix a "-" = true)) →
      (Evaluate h ("git" :: "clean" :: rest) ctx p).Decision = DecisionBlock ∧
      (Evaluate h ("git" :: "clean" :: rest) ctx p).Hard = true ∧
      (inListPrefix h "git" p.BlockCommands = false →
        Evaluate h ("git" :: "clean" :: rest) ctx p =
          { Decision := DecisionBlock, Hard := true,
            Reasons := ["git clean -fdx without dry-run"], Signals := [],
            PreviewHint := none, SaferAlternative := "git clean -ndx" })) ∧
    ((∃ a ∈ rest, a = "-n" ∨ a = "--dry-run" ∨ strings.HasPrefix a "-" = false) →
      isUnsafeGitClean ("git" :: "clean" :: rest) = false ∧
      (Evaluate h ("git" :: "clean" :: rest) ctx p).Reasons ≠
        ["git clean -fdx without dry-run"]) := by
  constructor
  · rintro ⟨hfdx, hdry, hflags⟩
    have hu := isUnsafeGitClean_of_fdx rest hfdx hdry hflags
    cases hb : inListPrefix h "git" p.BlockCommands <;>
      simp [Evaluate, strings.ToLower_git, hb, hu, isCatastrophicRm_git,
        isUnsafeGitReset_clean]
  · intro hex
    have hu := isUnsafeGitClean_dry_or_path rest hex
    refine ⟨hu, ?_⟩
    simp only [Evaluate, hu]
    split_ifs <;> first | contradiction | simp

/-- The command `git clean -fdx` is blocked; with `-n` or with a path the rule is silent. -/
theorem evaluate_git_clean_fdx_witness :
    Evaluate sampleHost ["git", "clean", "-fdx"] sampleCtx samplePolicy =
      { Decision := "BLOCK", Hard := true, Reasons := ["git clean -fdx without dry-run"],
        SaferAlternative := "git clean -ndx" } ∧
    isUnsafeGitClean ["git", "clean", "-fdx", "-n"] = false ∧
    isUnsafeGitClean ["git", "clean", "-fdx", "build"] = false :=
  ⟨((evaluate_git_clean_fdx sampleHost sampleCtx samplePolicy ["-fdx"]).1
      ⟨by decide, by decide, by decide⟩).2.2 (by decide),
   ((evaluate_git_clean_fdx sampleHost sampleCtx samplePolicy ["-fdx", "-n"]).2
      ⟨"-n", by decide, Or.inl rfl⟩).1,
   ((evaluate_git_clean_fdx sampleHost sampleCtx samplePolicy ["-fdx", "build"]).2
      ⟨"build", by decide, Or.inr (Or.inr (by decide))⟩).1⟩

/-- C4: with a block list that does not match `git`, a command beginning
`git reset --hard` gets the hard BLOCK `git reset --hard with dirty tree` exactly when
the context reports `Changed > 0` or `Untracked > 0`; with zero changed and zero
untracked files the verdict is not BLOCK and, unless an allow-list entry matches, it is
CONFIRM with `mutating command` among its signals. -/
theorem evaluate_git_reset_hard (h : Host) (ctx : contextinfo.Info) (p : policy.Policy)
    (rest : List String)
    (hblk : inListPrefix h (strings.ToLower h "git") p.BlockCommands = false) :
    (Evaluate h ("git" :: "reset" :: "--hard" :: rest) ctx p =
        { Decision := DecisionBlock, Hard := true,
          Reasons := ["git reset --hard with dirty tree"], Signals := [],
          PreviewHint := none, SaferAlternative := "commit or stash first" } ↔
      (ctx.Git.Changed > 0 ∨ ctx.Git.Untracked > 0)) ∧
    (ctx.Git.Changed = 0 → ctx.Git.Untracked = 0 →
      (Evaluate h ("git" :: "reset" :: "--hard" :: rest) ctx p).Decision ≠ DecisionBlock ∧
      (inAllowList h ("git" :: "reset" :: "--hard" :: rest) p.AllowCommands = false →
        (Evaluate h ("git" :: "reset" :: "--hard" :: rest) ctx p).Decision = DecisionConfirm ∧
        "mutating command" ∈
          (Evaluate h ("git" :: "reset" :: "--hard" :: rest) ctx p).Signals)) := by
  rw [strings.ToLower_git] at hblk
  have hmut := mutating_mem_riskSignals h ("git" :: "reset" :: "--hard" :: rest) ctx p
    (extractTargets ("git" :: "reset" :: "--hard" :: rest))
  have hne : (riskSignals h ("git" :: "reset" :: "--hard" :: rest) ctx p "git"
      (extractTargets ("git" :: "reset" :: "--hard" :: rest))) ≠ [] :=
    List.ne_nil_of_mem hmut
  constructor
  · by_cases hd : ctx.Git.Changed > 0 ∨ ctx.Git.Untracked > 0
    · simp [Evaluate, strings.ToLower_git, hblk, isCatastrophicRm_git, isUnsafeGitReset_hard,
        hd]
    · simp only [Evaluate, strings.ToLower_git, hblk, isCatastrophicRm_git,
        isUnsafeGitReset_hard, hd, isUnsafeGitClean_reset]
      cases inAllowList h ("git" :: "reset" :: "--hard" :: rest) p.AllowCommands <;>
        simp [hne, DecisionBlock, DecisionAllow, DecisionConfirm]
  · intro hc hu
    have hd : ¬ (ctx.Git.Changed > 0 ∨ ctx.Git.Untracked > 0) := by simp [hc, hu]
    simp only [Evaluate, strings.ToLower_git, hblk, isCatastrophicRm_git,
      isUnsafeGitReset_hard, hd, isUnsafeGitClean_reset]
    cases inAllowList h ("git" :: "reset" :: "--hard" :: rest) p.AllowCommands <;>
      simp [hne, hmut, DecisionBlock, DecisionAllow, DecisionConfirm]

/-- The command `git reset --hard` is blocked in a dirty tree and confirmed in a clean one. -/
theorem evaluate_git_reset_hard_witness :
    Evaluate sampleHost ["git", "reset", "--hard"] dirtyCtx samplePolicy =
      { Decision := "BLOCK", Hard := true, Reasons := ["git reset --hard with dirty tree"],
        SaferAlternative := "commit or stash first" } ∧
    (Evaluate sampleHost ["git", "reset", "--hard"] sampleCtx samplePolicy).Decision
      = "CONFIRM" ∧
    "mutating command" ∈
      (Evaluate sampleHost ["git", "reset", "--hard"] sampleCtx samplePolicy).Signals :=
  ⟨(evaluate_git_reset_hard sampleHost dirtyCtx samplePolicy [] (by decide)).1.2
      (Or.inl (by decide)),
   ((evaluate_git_reset_hard sampleHost sampleCtx samplePolicy [] (by decide)).2
      rfl rfl).2 (by decide)⟩

/-! ## The verdicts of the ladder and the arbitration step -/

theorem Evaluate_decision (h : Host) (args : List String) (ctx : contextinfo.Info)
    (p : policy.Policy) :
    ((Evaluate h args ctx p).Decision = DecisionBlock ∧ (Evaluate h args ctx p).Hard = true) ∨
    ((Evaluate h args ctx p).Decision = DecisionAllow ∧ (Evaluate h args ctx p).Hard = false) ∨
    ((Evaluate h args ctx p).Decision = DecisionConfirm ∧
      (Evaluate h args ctx p).Hard = false) := by
  cases args with
  | nil => simp [Evaluate]
  | cons cmd rest =>
    simp only [Evaluate]
    split_ifs <;> simp

theorem Evaluate_nil (h : Host) (ctx : contextinfo.Info) (p : policy.Policy) :
    (Evaluate h [] ctx p).Decision = DecisionBlock := by
  simp [Evaluate]

theorem arbitrate_of_ne_confirm (ask : arbiter.Input → arbiter.Decision)
    (args : List String) (pol : policy.Policy) (v : classifier.Result)
    (hv : v.Decision ≠ DecisionConfirm) : arbitrate ask args pol v = v := by
  simp [arbitrate, hv]

theorem arbitrate_cases (ask : arbiter.Input → arbiter.Decision)
    (args : List String) (pol : policy.Policy) (v : classifier.Result) :
    arbitrate ask args pol v = v ∨
    (v.Decision = DecisionConfirm ∧
      (arbitrate ask args pol v).Decision = DecisionBlock ∧
      (arbitrate ask args pol v).Hard = false) := by
  simp only [arbitrate]
  split_ifs with h1 h2
  · right
    have hc : v.Decision = DecisionConfirm := by simp at h1; exact h1.2
    simp [hc]
  · left; rfl
  · left; rfl

theorem verdict_nil (w : World) (ctx : contextinfo.Info) (pol : policy.Policy) :
    (verdict w [] ctx pol).Decision = DecisionBlock := by
  unfold verdict
  rw [arbitrate_of_ne_confirm _ _ _ _ (by simp [Evaluate, DecisionBlock, DecisionConfirm])]
  exact Evaluate_nil _ _ _

/-- C6: on a verdict of `Evaluate` and with any arbiter, the arbitration step leaves an
ALLOW or BLOCK verdict unchanged, turns a CONFIRM verdict into CONFIRM or into BLOCK with
hard=false and never into ALLOW, and keeps the hard flag as it was. -/
theorem arbitrate_only_tightens (h : Host) (ask : arbiter.Input → arbiter.Decision)
    (args : List String) (ctx : contextinfo.Info) (p : policy.Policy) :
    ((Evaluate h args ctx p).Decision = DecisionAllow ∨
        (Evaluate h args ctx p).Decision = DecisionBlock →
      arbitrate ask args p (Evaluate h args ctx p) = Evaluate h args ctx p) ∧
    ((Evaluate h args ctx p).Decision = DecisionConfirm →
      ((arbitrate ask args p (Evaluate h args ctx p)).Decision = DecisionConfirm ∨
        ((arbitrate ask args p (Evaluate h args ctx p)).Decision = DecisionBlock ∧
          (arbitrate ask args p (Evaluate h args ctx p)).Hard = false)) ∧
      (arbitrate ask args p (Evaluate h args ctx p)).Decision ≠ DecisionAllow) ∧
    (arbitrate ask args p (Evaluate h args ctx p)).Hard =
      (Evaluate h args ctx p).Hard := by
  refine ⟨?_, ?_, ?_⟩
  · intro hd
    apply arbitrate_of_ne_confirm
    rcases hd with hd | hd <;> rw [hd] <;> decide
  · intro hd
    rcases arbitrate_cases ask args p (Evaluate h args ctx p) with hA | ⟨_, hB, hH⟩
    · rw [hA, hd]
      exact ⟨Or.inl rfl, by decide⟩
    · rw [hB]
      exact ⟨Or.inr ⟨rfl, hH⟩, by decide⟩
  · rcases arbitrate_cases ask args p (Evaluate h args ctx p) with hA | ⟨hc, _, hH⟩
    · rw [hA]
    · rcases Evaluate_decision h args ctx p with hE | hE | hE
      · rw [hE.1] at hc; exact absurd hc (by decide)
      · rw [hH, hE.2]
      · rw [hH, hE.2]

/-- An arbiter answering BLOCK tightens the CONFIRM for `rm foo`, one answering ALLOW
does not loosen it, and the hard BLOCK for `rm -rf /` stays as it is. -/
theorem arbitrate_only_tightens_witness :
    arbitrate (fun _ => { Decision := "BLOCK", Reason := "too risky" }) ["rm", "foo"]
        arbiterPolicy (Evaluate sampleHost ["rm", "foo"] sampleCtx arbiterPolicy) =
      { Decision := "BLOCK", Hard := false,
        Reasons := ["risk signals present", "arbiter: too risky"],
        Signals := ["mutating command"],
        PreviewHint := some { Kind := "rm", Args := ["rm", "foo"], Targets := ["foo"] },
        SaferAlternative := "add --dry-run or target fewer files" } ∧
    (arbitrate (fun _ => { Decision := "ALLOW", Reason := "looks fine" }) ["rm", "foo"]
        arbiterPolicy (Evaluate sampleHost ["rm", "foo"] sampleCtx arbiterPolicy)).Decision
      ≠ "ALLOW" ∧
    arbitrate (fun _ => { Decision := "CONFIRM", Reason := "" }) ["rm", "-rf", "/"]
        arbiterPolicy (Evaluate sampleHost ["rm", "-rf", "/"] sampleCtx arbiterPolicy) =
      Evaluate sampleHost ["rm", "-rf", "/"] sampleCtx arbiterPolicy :=
  ⟨by decide,
   ((arbitrate_only_tightens sampleHost (fun _ => { Decision := "ALLOW", Reason := "looks fine" })
      ["rm", "foo"] sampleCtx arbiterPolicy).2.1 (by decide)).2,
   (arbitrate_only_tightens sampleHost (fun _ => { Decision := "CONFIRM", Reason := "" })
      ["rm", "-rf", "/"] sampleCtx arbiterPolicy).1 (Or.inr (by decide))⟩

/-! ## The orchestrator -/

theorem Run_of_setup (w : World) (args : List String) (opts : RunOptions)
    (ctx : contextinfo.Info) (pol : policy.Policy) (logger : audit.Logger)
    (hctx : w.detect = .ok ctx) (hpol : w.loadPolicy (policyPath w opts ctx) = .ok pol)
    (hlog : audit.New w ctx.RepoRoot = .ok logger) :
    Run w args opts =
      decideAndFinish w args opts ctx logger (verdict w args ctx pol)
        (withPreview w ctx pol (verdict w args ctx pol)
          (newEntry w args ctx (verdict w args ctx pol))).2 := by
  simp [Run, hctx, hpol, hlog]

theorem withPreview_BreakGlass (w : World) (ctx : contextinfo.Info) (pol : policy.Policy)
    (result : classifier.Result) (e : audit.Entry) :
    (withPreview w ctx pol result e).2.BreakGlass = e.BreakGlass := by
  unfold withPreview
  cases result.PreviewHint with
  | none => rfl
  | some hint => cases hp : e.Preview <;> simp

theorem execute_cons (w : World) (a : String) (rest : List String) (ctx : contextinfo.Info) :
    ∃ code err, execute w (a :: rest) ctx = some (code, err) := by
  simp only [execute]
  cases w.cmdRun (a :: rest) ctx.Cwd <;> simp

theorem executeAndRecord_cons (w : World) (a : String) (rest : List String)
    (ctx : contextinfo.Info) (logger : audit.Logger) (e : audit.Entry) :
    (∃ e1, (executeAndRecord w (a :: rest) ctx logger e).recorded = [e1] ∧
      (e1.Outcome = "executed" ∨ e1.Outcome = "failed")) ∧
    (executeAndRecord w (a :: rest) ctx logger e).recordResults.length = 1 ∧
    (executeAndRecord w (a :: rest) ctx logger e).ret ≠ .panic := by
  obtain ⟨code, err, hx⟩ := execute_cons w a rest ctx
  cases err <;> simp [executeAndRecord, hx, recordAndReturn]

theorem finish_cons (w : World) (a : String) (rest : List String) (opts : RunOptions)
    (ctx : contextinfo.Info) (logger : audit.Logger) (e : audit.Entry) :
    (∃ e1, (finish w (a :: rest) opts ctx logger e).recorded = [e1] ∧
      (e1.Outcome = "cancelled" ∨ e1.Outcome = "executed" ∨ e1.Outcome = "failed")) ∧
    (finish w (a :: rest) opts ctx logger e).recordResults.length = 1 ∧
    (finish w (a :: rest) opts ctx logger e).ret ≠ .panic := by
  simp only [finish]
  split_ifs with h1 h2
  · exact ⟨⟨_, rfl, Or.inl rfl⟩, rfl, by simp [recordAndReturn]⟩
  · obtain ⟨⟨e1, h3, h4⟩, h5⟩ := executeAndRecord_cons w a rest ctx logger
      { e with BreakGlass := true, BreakGlassReason := opts.BreakGlassReason }
    exact ⟨⟨e1, h3, Or.inr h4⟩, h5⟩
  · obtain ⟨⟨e1, h3, h4⟩, h5⟩ := executeAndRecord_cons w a rest ctx logger e
    exact ⟨⟨e1, h3, Or.inr h4⟩, h5⟩

theorem RequirePhrase_of_mismatch (line : Option String) (phrase : String)
    (hline : ∀ l, line = some l → strings.TrimSpace l ≠ phrase) :
    ui.RequirePhrase line phrase = false := by
  cases line with
  | none => rfl
  | some l => simpa [ui.RequirePhrase] using hline l rfl

theorem finish_mismatch (w : World) (args : List String) (opts : RunOptions)
    (ctx : contextinfo.Info) (logger : audit.Logger) (e : audit.Entry)
    (hbg : opts.BreakGlass = true)
    (hline : ∀ l, w.phraseLine = some l → strings.TrimSpace l ≠ "break glass for clash") :
    finish w args opts ctx logger e =
      recordAndReturn w logger { e with Outcome := "cancelled" } []
        (.value 1 (some "break-glass phrase mismatch")) := by
  simp [finish, hbg, RequirePhrase_of_mismatch _ _ hline]

theorem confirm_ne_block : DecisionConfirm ≠ DecisionBlock := by decide

theorem allow_ne_block : DecisionAllow ≠ DecisionBlock := by decide

theorem allow_ne_confirm : DecisionAllow ≠ DecisionConfirm := by decide

theorem decideAndFinish_block (w : World) (args : List String) (opts : RunOptions)
    (ctx : contextinfo.Info) (logger : audit.Logger) (v : classifier.Result)
    (e : audit.Entry) (hv : v.Decision = DecisionBlock) :
    decideAndFinish w args opts ctx logger v e =
      recordAndReturn w logger { e with Outcome := "blocked" } []
        (.value 1 (some "command blocked")) := by
  simp [decideAndFinish, hv]

theorem decideAndFinish_refused (w : World) (args : List String) (opts : RunOptions)
    (ctx : contextinfo.Info) (logger : audit.Logger) (v : classifier.Result)
    (e : audit.Entry) (hv : v.Decision = DecisionConfirm) (hy : opts.AutoYes = false)
    (hc : ui.Confirm w.host w.confirmLine = false) :
    decideAndFinish w args opts ctx logger v e =
      recordAndReturn w logger { e with Outcome := "cancelled" } []
        (.value 1 (some "cancelled")) := by
  simp [decideAndFinish, hv, hy, hc, confirm_ne_block]

theorem decideAndFinish_approved (w : World) (args : List String) (opts : RunOptions)
    (ctx : contextinfo.Info) (logger : audit.Logger) (v : classifier.Result)
    (e : audit.Entry) (hv : v.Decision = DecisionConfirm)
    (hok : opts.AutoYes = true ∨ ui.Confirm w.host w.confirmLine = true) :
    decideAndFinish w args opts ctx logger v e =
      finish w args opts ctx logger
        { e with ApprovedBy := if opts.AutoYes then "--yes" else "user" } := by
  cases hy : opts.AutoYes <;> cases hc : ui.Confirm w.host w.confirmLine <;>
    simp [decideAndFinish, hv, hy, hc, confirm_ne_block] at hok ⊢

theorem decideAndFinish_allow (w : World) (args : List String) (opts : RunOptions)
    (ctx : contextinfo.Info) (logger : audit.Logger) (v : classifier.Result)
    (e : audit.Entry) (hb : v.Decision ≠ DecisionBlock) (hc : v.Decision ≠ DecisionConfirm) :
    decideAndFinish w args opts ctx logger v e = finish w args opts ctx logger e := by
  simp [decideAndFinish, hb, hc]

/-- C5: when setup succeeds and the verdict after arbitration is BLOCK, hard or not, then
for every choice of options and every operator input no child process is run, exactly
one entry is recorded, its outcome is `blocked`, and `Run` returns code 1 with the error
`command blocked`. -/
theorem run_block_never_executes (w : World) (args : List String) (opts : RunOptions)
    (ctx : contextinfo.Info) (pol : policy.Policy) (logger : audit.Logger)
    (hctx : w.detect = .ok ctx) (hpol : w.loadPolicy (policyPath w opts ctx) = .ok pol)
    (hlog : audit.New w ctx.RepoRoot = .ok logger)
    (hblock : (verdict w args ctx pol).Decision = DecisionBlock) :
    (Run w args opts).executions = [] ∧
    (∃ e, (Run w args opts).recorded = [e] ∧ e.Outcome = "blocked") ∧
    (Run w args opts).ret = .value 1 (some "command blocked") := by
  rw [Run_of_setup w args opts ctx pol logger hctx hpol hlog,
    decideAndFinish_block _ _ _ _ _ _ _ hblock]
  exact ⟨rfl, ⟨_, rfl, rfl⟩, rfl⟩

/-- A BLOCK by the arbiter stops `rm foo` although auto-approve and break-glass are set. -/
theorem run_block_never_executes_witness :
    (Run blockingArbiterWorld ["rm", "foo"]
      { AutoYes := true, BreakGlass := true, BreakGlassReason := "outage" }).executions = [] ∧
    (∃ e, (Run blockingArbiterWorld ["rm", "foo"]
      { AutoYes := true, BreakGlass := true, BreakGlassReason := "outage" }).recorded = [e] ∧
      e.Outcome = "blocked") ∧
    (Run blockingArbiterWorld ["rm", "foo"]
      { AutoYes := true, BreakGlass := true, BreakGlassReason := "outage" }).ret =
        .value 1 (some "command blocked") :=
  run_block_never_executes blockingArbiterWorld ["rm", "foo"]
    { AutoYes := true, BreakGlass := true, BreakGlassReason := "outage" }
    sampleCtx arbiterPolicy { path := "/repo/.clash/audit.log" } rfl rfl rfl (by decide)

/-- C7: when setup succeeds and the verdict is CONFIRM, a child process is run only if
the auto-approve flag was supplied or the operator answered the confirmation prompt
affirmatively; when neither holds no child process is run, exactly one entry is recorded,
its outcome is `cancelled`, and `Run` returns code 1. -/
theorem run_confirm_needs_approval (w : World) (args : List String) (opts : RunOptions)
    (ctx : contextinfo.Info) (pol : policy.Policy) (logger : audit.Logger)
    (hctx : w.detect = .ok ctx) (hpol : w.loadPolicy (policyPath w opts ctx) = .ok pol)
    (hlog : audit.New w ctx.RepoRoot = .ok logger)
    (hconfirm : (verdict w args ctx pol).Decision = DecisionConfirm) :
    ((Run w args opts).executions ≠ [] →
      opts.AutoYes = true ∨ ui.Confirm w.host w.confirmLine = true) ∧
    (opts.AutoYes = false → ui.Confirm w.host w.confirmLine = false →
      (Run w args opts).executions = [] ∧
      (∃ e, (Run w args opts).recorded = [e] ∧ e.Outcome = "cancelled") ∧
      (Run w args opts).ret = .value 1 (some "cancelled")) := by
  rw [Run_of_setup w args opts ctx pol logger hctx hpol hlog]
  constructor
  · intro hex
    by_contra hno
    simp only [not_or, Bool.not_eq_true] at hno
    rw [decideAndFinish_refused _ _ _ _ _ _ _ hconfirm hno.1 hno.2] at hex
    exact hex rfl
  · intro hy hc
    rw [decideAndFinish_refused _ _ _ _ _ _ _ hconfirm hy hc]
    exact ⟨rfl, ⟨_, rfl, rfl⟩, rfl⟩

/-- Without auto-approve and with the operator answering `n`, `rm foo` is cancelled. -/
theorem run_confirm_needs_approval_witness :
    (Run sampleWorld ["rm", "foo"] {}).executions = [] ∧
    (∃ e, (Run sampleWorld ["rm", "foo"] {}).recorded = [e] ∧ e.Outcome = "cancelled") ∧
    (Run sampleWorld ["rm", "foo"] {}).ret = .value 1 (some "cancelled") :=
  (run_confirm_needs_approval sampleWorld ["rm", "foo"] {} sampleCtx samplePolicy
    { path := "/repo/.clash/audit.log" } rfl rfl rfl (by decide)).2 rfl (by decide)

/-- C8: when setup succeeds, break-glass is requested and the verdict is CONFIRM or
ALLOW, an operator input that, trimmed of white space, is not exactly the phrase
`break glass for clash` (or that cannot be read) means that no child process is run,
exactly one entry is recorded, its outcome is `cancelled`, its break-glass flag is not
set, and `Run` returns code 1 with an error. -/
theorem run_break_glass_mismatch (w : World) (args : List String) (opts : RunOptions)
    (ctx : contextinfo.Info) (pol : policy.Policy) (logger : audit.Logger)
    (hctx : w.detect = .ok ctx) (hpol : w.loadPolicy (policyPath w opts ctx) = .ok pol)
    (hlog : audit.New w ctx.RepoRoot = .ok logger)
    (hbg : opts.BreakGlass = true)
    (hverdict : (verdict w args ctx pol).Decision = DecisionConfirm ∨
      (verdict w args ctx pol).Decision = DecisionAllow)
    (hline : ∀ l, w.phraseLine = some l → strings.TrimSpace l ≠ "break glass for clash") :
    (Run w args opts).executions = [] ∧
    (∃ e, (Run w args opts).recorded = [e] ∧ e.Outcome = "cancelled" ∧
      e.BreakGlass = false) ∧
    (∃ err, (Run w args opts).ret = .value 1 (some err)) := by
  rw [Run_of_setup w args opts ctx pol logger hctx hpol hlog]
  have hbgf : (withPreview w ctx pol (verdict w args ctx pol)
      (newEntry w args ctx (verdict w args ctx pol))).2.BreakGlass = false := by
    rw [withPreview_BreakGlass]; rfl
  rcases hverdict with hv | hv
  · cases hy : opts.AutoYes <;> cases hc : ui.Confirm w.host w.confirmLine
    · rw [decideAndFinish_refused _ _ _ _ _ _ _ hv hy hc]
      exact ⟨rfl, ⟨_, rfl, rfl, hbgf⟩, _, rfl⟩
    · rw [decideAndFinish_approved _ _ _ _ _ _ _ hv (Or.inr hc),
        finish_mismatch w args opts ctx logger _ hbg hline]
      exact ⟨rfl, ⟨_, rfl, rfl, hbgf⟩, _, rfl⟩
    · rw [decideAndFinish_approved _ _ _ _ _ _ _ hv (Or.inl hy),
        finish_mismatch w args opts ctx logger _ hbg hline]
      exact ⟨rfl, ⟨_, rfl, rfl, hbgf⟩, _, rfl⟩
    · rw [decideAndFinish_approved _ _ _ _ _ _ _ hv (Or.inl hy),
        finish_mismatch w args opts ctx logger _ hbg hline]
      exact ⟨rfl, ⟨_, rfl, rfl, hbgf⟩, _, rfl⟩
  · rw [decideAndFinish_allow _ _ _ _ _ _ _ (by rw [hv]; exact allow_ne_block)
        (by rw [hv]; exact allow_ne_confirm),
      finish_mismatch w args opts ctx logger _ hbg hline]
    exact ⟨rfl, ⟨_, rfl, rfl, hbgf⟩, _, rfl⟩

/-- The operator approves `rm foo` but types `break glass` only: the run is cancelled. -/
theorem run_break_glass_mismatch_witness :
    (Run approvingWorld ["rm", "foo"] { BreakGlass := true }).executions = [] ∧
    (∃ e, (Run approvingWorld ["rm", "foo"] { BreakGlass := true }).recorded = [e] ∧
      e.Outcome = "cancelled" ∧ e.BreakGlass = false) ∧
    (∃ err, (Run approvingWorld ["rm", "foo"] { BreakGlass := true }).ret =
      .value 1 (some err)) :=
  run_break_glass_mismatch approvingWorld ["rm", "foo"] { BreakGlass := true } sampleCtx
    samplePolicy { path := "/repo/.clash/audit.log" } rfl rfl rfl rfl
    (Or.inl (by decide)) (by intro l hl; cases hl; decide)

/-- C9: whenever setup succeeds (context detected, policy loaded, ledger opened), `Run`
passes exactly one entry to `Record` on the way to its return, the outcome of that entry
is one of `blocked`, `cancelled`, `executed` and `failed`, and `Run` does not end in a
panic. -/
theorem run_records_exactly_once (w : World) (args : List String) (opts : RunOptions)
    (ctx : contextinfo.Info) (pol : policy.Policy) (logger : audit.Logger)
    (hctx : w.detect = .ok ctx) (hpol : w.loadPolicy (policyPath w opts ctx) = .ok pol)
    (hlog : audit.New w ctx.RepoRoot = .ok logger) :
    (∃ e, (Run w args opts).recorded = [e] ∧
      (e.Outcome = "blocked" ∨ e.Outcome = "cancelled" ∨ e.Outcome = "executed" ∨
        e.Outcome = "failed")) ∧
    (Run w args opts).recordResults.length = 1 ∧
    (Run w args opts).ret ≠ .panic := by
  rw [Run_of_setup w args opts ctx pol logger hctx hpol hlog]
  by_cases hb : (verdict w args ctx pol).Decision = DecisionBlock
  · rw [decideAndFinish_block _ _ _ _ _ _ _ hb]
    exact ⟨⟨_, rfl, Or.inl rfl⟩, rfl, by simp [recordAndReturn]⟩
  · cases args with
    | nil => exact absurd (verdict_nil w ctx pol) hb
    | cons a rest =>
      by_cases hv : (verdict w (a :: rest) ctx pol).Decision = DecisionConfirm
      · by_cases hok : opts.AutoYes = true ∨ ui.Confirm w.host w.confirmLine = true
        · rw [decideAndFinish_approved _ _ _ _ _ _ _ hv hok]
          obtain ⟨⟨e1, h3, h4⟩, h5, h6⟩ := finish_cons w a rest opts ctx logger
            { (withPreview w ctx pol (verdict w (a :: rest) ctx pol)
                (newEntry w (a :: rest) ctx (verdict w (a :: rest) ctx pol))).2 with
              ApprovedBy := if opts.AutoYes then "--yes" else "user" }
          exact ⟨⟨e1, h3, Or.inr h4⟩, h5, h6⟩
        · simp only [not_or, Bool.not_eq_true] at hok
          rw [decideAndFinish_refused _ _ _ _ _ _ _ hv hok.1 hok.2]
          exact ⟨⟨_, rfl, Or.inr (Or.inl rfl)⟩, rfl, by simp [recordAndReturn]⟩
      · rw [decideAndFinish_allow _ _ _ _ _ _ _ hb hv]
        obtain ⟨⟨e1, h3, h4⟩, h5, h6⟩ := finish_cons w a rest opts ctx logger
          (withPreview w ctx pol (verdict w (a :: rest) ctx pol)
              (newEntry w (a :: rest) ctx (verdict w (a :: rest) ctx pol))).2
        exact ⟨⟨e1, h3, Or.inr h4⟩, h5, h6⟩

/-- The approved run of `rm foo` records one entry. -/
theorem run_records_exactly_once_witness :
    (∃ e, (Run approvingWorld ["rm", "foo"] {}).recorded = [e] ∧
      (e.Outcome = "blocked" ∨ e.Outcome = "cancelled" ∨ e.Outcome = "executed" ∨
        e.Outcome = "failed")) ∧
    (Run approvingWorld ["rm", "foo"] {}).recordResults.length = 1 ∧
    (Run approvingWorld ["rm", "foo"] {}).ret ≠ .panic :=
  run_records_exactly_once approvingWorld ["rm", "foo"] {} sampleCtx samplePolicy
    { path := "/repo/.clash/audit.log" } rfl rfl rfl

theorem executeAndRecord_ret_appendEntry (w : World)
    (f : String → audit.Entry → Option String) (args : List String)
    (ctx : contextinfo.Info) (logger : audit.Logger) (e : audit.Entry) :
    (executeAndRecord { w with appendEntry := f } args ctx logger e).ret =
      (executeAndRecord w args ctx logger e).ret := by
  cases args with
  | nil => rfl
  | cons a rest =>
    simp only [executeAndRecord, execute]
    cases w.cmdRun (a :: rest) ctx.Cwd <;> rfl

theorem finish_ret_appendEntry (w : World) (f : String → audit.Entry → Option String)
    (args : List String) (opts : RunOptions) (ctx : contextinfo.Info)
    (logger : audit.Logger) (e : audit.Entry) :
    (finish { w with appendEntry := f } args opts ctx logger e).ret =
      (finish w args opts ctx logger e).ret := by
  simp only [finish]
  split_ifs
  · rfl
  · exact executeAndRecord_ret_appendEntry w f args ctx logger _
  · exact executeAndRecord_ret_appendEntry w f args ctx logger _

theorem decideAndFinish_ret_appendEntry (w : World)
    (f : String → audit.Entry → Option String) (args : List String) (opts : RunOptions)
    (ctx : contextinfo.Info) (logger : audit.Logger) (v : classifier.Result)
    (e : audit.Entry) :
    (decideAndFinish { w with appendEntry := f } args opts ctx logger v e).ret =
      (decideAndFinish w args opts ctx logger v e).ret := by
  simp only [decideAndFinish]
  split_ifs <;> first | rfl | exact finish_ret_appendEntry w f args opts ctx logger _

theorem Run_ret_appendEntry (w : World) (f : String → audit.Entry → Option String)
    (args : List String) (opts : RunOptions) :
    (Run { w with appendEntry := f } args opts).ret = (Run w args opts).ret := by
  have hp : ∀ ctx, policyPath { w with appendEntry := f } opts ctx = policyPath w opts ctx :=
    fun _ => rfl
  have hn : ∀ r, audit.New { w with appendEntry := f } r = audit.New w r := fun _ => rfl
  simp only [Run, hp, hn]
  cases w.detect with
  | error e => rfl
  | ok ctx =>
    simp only []
    cases w.loadPolicy (policyPath w opts ctx) with
    | error e => rfl
    | ok pol =>
      simp only []
      cases audit.New w ctx.RepoRoot with
      | error e => rfl
      | ok logger => exact decideAndFinish_ret_appendEntry w f args opts ctx logger _ _

/-- C10: the code at a failing input.  In a world whose ledger cannot be written, the
allowed command `ls` is run and exits with status 0, the one call of `Record` returns an
error, and `Run` still returns exit code 0 with a nil error: the write failure does not
reach the caller. -/
theorem run_drops_ledger_failure :
    (Run brokenLedgerWorld ["ls"] {}).executions = [["ls"]] ∧
    (Run brokenLedgerWorld ["ls"] {}).recordResults =
      [some "write .clash/audit.log: no space left on device"] ∧
    (Run brokenLedgerWorld ["ls"] {}).ret = .value 0 none :=
  ⟨by decide, by decide, by decide⟩

/-! ## The allow list and the risk signals -/

theorem hardBlocked_cons (h : Host) (cmd : String) (rest : List String)
    (ctx : contextinfo.Info) (p : policy.Policy)
    (hnb : hardBlocked h (cmd :: rest) ctx p = false) :
    inListPrefix h (strings.ToLower h cmd) p.BlockCommands = false ∧
    isCatastrophicRm h (strings.ToLower h cmd) (cmd :: rest) ctx = false ∧
    isUnsafeGitReset (cmd :: rest) ctx = false ∧
    isUnsafeGitClean (cmd :: rest) = false := by
  simpa [hardBlocked, and_assoc] using hnb

theorem Evaluate_of_not_hardBlocked (h : Host) (cmd : String) (rest : List String)
    (ctx : contextinfo.Info) (p : policy.Policy)
    (hnb : hardBlocked h (cmd :: rest) ctx p = false) :
    Evaluate h (cmd :: rest) ctx p =
      if inAllowList h (cmd :: rest) p.AllowCommands then
        { Decision := DecisionAllow, Reasons := ["allowlisted read-only command"] }
      else if (riskSignals h (cmd :: rest) ctx p (strings.ToLower h cmd)
          (extractTargets (cmd :: rest))).length = 0 then
        { Decision := DecisionAllow, Reasons := ["no risk signals"] }
      else
        { Decision := DecisionConfirm, Reasons := ["risk signals present"],
          Signals := riskSignals h (cmd :: rest) ctx p (strings.ToLower h cmd)
            (extractTargets (cmd :: rest)),
          PreviewHint := previewHint h (cmd :: rest) (strings.ToLower h cmd)
            (extractTargets (cmd :: rest)),
          SaferAlternative := suggestAlternative (strings.ToLower h cmd)
            (previewHint h (cmd :: rest) (strings.ToLower h cmd)
              (extractTargets (cmd :: rest))) } := by
  obtain ⟨h1, h2, h3, h4⟩ := hardBlocked_cons h cmd rest ctx p hnb
  simp [Evaluate, h1, h2, h3, h4]

theorem Evaluate_block_iff (h : Host) (args : List String) (ctx : contextinfo.Info)
    (p : policy.Policy) :
    (Evaluate h args ctx p).Decision = DecisionBlock ↔ hardBlocked h args ctx p = true := by
  cases args with
  | nil => simp [Evaluate, hardBlocked]
  | cons cmd rest =>
    cases hb : hardBlocked h (cmd :: rest) ctx p
    · rw [Evaluate_of_not_hardBlocked h cmd rest ctx p hb]
      split_ifs <;> simp [DecisionAllow, DecisionConfirm, DecisionBlock]
    · simp only [hardBlocked, Bool.or_eq_true] at hb
      simp only [Evaluate]
      split_ifs <;> simp_all [DecisionBlock]

/-- C13: on a command that tier 1 does not answer, `Evaluate` returns ALLOW with the
reason `allowlisted read-only command` exactly when the space-joined, lowercased command
line equals a lowercased allow entry or starts with that entry followed by a space. -/
theorem evaluate_allow_list_iff (h : Host) (args : List String) (ctx : contextinfo.Info)
    (p : policy.Policy) (hnb : hardBlocked h args ctx p = false) :
    Evaluate h args ctx p =
        { Decision := DecisionAllow, Hard := false,
          Reasons := ["allowlisted read-only command"], Signals := [],
          PreviewHint := none, SaferAlternative := "" } ↔
      ∃ a ∈ p.AllowCommands,
        strings.ToLower h (strings.Join args " ") = strings.ToLower h a ∨
        strings.HasPrefix (strings.ToLower h (strings.Join args " "))
          (strings.ToLower h a ++ " ") = true := by
  have hallow : inAllowList h args p.AllowCommands = true ↔
      ∃ a ∈ p.AllowCommands,
        strings.ToLower h (strings.Join args " ") = strings.ToLower h a ∨
        strings.HasPrefix (strings.ToLower h (strings.Join args " "))
          (strings.ToLower h a ++ " ") = true := by
    simp [inAllowList]
  rw [← hallow]
  cases args with
  | nil => simp [hardBlocked] at hnb
  | cons cmd rest =>
    rw [Evaluate_of_not_hardBlocked h cmd rest ctx p hnb]
    cases inAllowList h (cmd :: rest) p.AllowCommands
    · split_ifs <;> first | contradiction | simp [DecisionAllow, DecisionConfirm]
    · simp

/-- The entry `ls` admits `ls` and `ls -la`, and does not admit `lsof`. -/
theorem evaluate_allow_list_iff_witness :
    Evaluate sampleHost ["ls"] sampleCtx samplePolicy =
      { Decision := "ALLOW", Reasons := ["allowlisted read-only command"] } ∧
    Evaluate sampleHost ["ls", "-la"] sampleCtx samplePolicy =
      { Decision := "ALLOW", Reasons := ["allowlisted read-only command"] } ∧
    Evaluate sampleHost ["lsof"] sampleCtx samplePolicy ≠
      { Decision := "ALLOW", Reasons := ["allowlisted read-only command"] } :=
  ⟨(evaluate_allow_list_iff sampleHost ["ls"] sampleCtx samplePolicy (by decide)).2
      ⟨"ls", by decide, Or.inl (by decide)⟩,
   (evaluate_allow_list_iff sampleHost ["ls", "-la"] sampleCtx samplePolicy (by decide)).2
      ⟨"ls", by decide, Or.inr (by decide)⟩,
   fun heq =>
     absurd ((evaluate_allow_list_iff sampleHost ["lsof"] sampleCtx samplePolicy
       (by decide)).1 heq) (by decide)⟩


/-- C14: on the empty command vector `Evaluate` returns BLOCK with hard=true, the single
reason `no command provided`, no signals and no preview hint, and `Run` on the empty
vector runs no child process and does not panic, so that `execute` never indexes
`args[0]` of an empty vector. -/
theorem evaluate_empty_vector (h : Host) (ctx : contextinfo.Info) (p : policy.Policy)
    (w : World) (opts : RunOptions) :
    Evaluate h [] ctx p =
      { Decision := DecisionBlock, Hard := true, Reasons := ["no command provided"],
        Signals := [], PreviewHint := none, SaferAlternative := "" } ∧
    (Run w [] opts).executions = [] ∧ (Run w [] opts).ret ≠ .panic := by
  refine ⟨rfl, ?_⟩
  simp only [Run]
  cases w.detect with
  | error e => simp
  | ok c =>
    simp only []
    cases w.loadPolicy (policyPath w opts c) with
    | error e => simp
    | ok pol =>
      simp only []
      cases audit.New w c.RepoRoot with
      | error e => simp
      | ok logger =>
        simp only []
        rw [decideAndFinish_block _ _ _ _ _ _ _ (verdict_nil w c pol)]
        simp [recordAndReturn]

theorem confirm_ne_allow : DecisionConfirm ≠ DecisionAllow := by decide

theorem extractTargetsFrom_eq (l : List String) :
    extractTargetsFrom l =
      (l.takeWhile fun a => a ≠ "--").filter (fun a => !strings.HasPrefix a "-") ++
        (l.dropWhile fun a => a ≠ "--").drop 1 := by
  induction l with
  | nil => simp [extractTargetsFrom]
  | cons a l ih =>
    by_cases ha : a = "--"
    · simp [extractTargetsFrom, ha]
    · by_cases hp : strings.HasPrefix a "-" = true
      · simp [extractTargetsFrom, ha, hp, ih, List.takeWhile, List.dropWhile]
      · simp [extractTargetsFrom, ha, hp, ih, List.takeWhile, List.dropWhile]

theorem extractTargets_eq_spec (args : List String) :
    extractTargets args = extractTargetsSpec args := by
  simp [extractTargets, extractTargetsSpec, extractTargetsFrom_eq]

theorem mem_riskSignals_of_mutating (h : Host) (args : List String)
    (ctx : contextinfo.Info) (p : policy.Policy) (lowerCmd : String)
    (targets : List String) (hm : isMutatingCommand lowerCmd = true) :
    "mutating command" ∈ riskSignals h args ctx p lowerCmd targets := by
  unfold riskSignals
  iterate 6 apply mem_ite_append
  simp [hm]

theorem mem_riskSignals_of_protected (h : Host) (args : List String)
    (ctx : contextinfo.Info) (p : policy.Policy) (lowerCmd : String)
    (targets : List String) (ht : touchesProtected h targets ctx p.ProtectedPaths = true) :
    "touches protected path" ∈ riskSignals h args ctx p lowerCmd targets := by
  unfold riskSignals
  iterate 5 apply mem_ite_append
  simp [ht]

theorem Evaluate_confirm_of_signal (h : Host) (cmd : String) (rest : List String)
    (ctx : contextinfo.Info) (p : policy.Policy) (sig : String)
    (hnb : hardBlocked h (cmd :: rest) ctx p = false)
    (hna : inAllowList h (cmd :: rest) p.AllowCommands = false)
    (hsig : sig ∈ riskSignals h (cmd :: rest) ctx p (strings.ToLower h cmd)
      (extractTargets (cmd :: rest))) :
    Evaluate h (cmd :: rest) ctx p =
      { Decision := DecisionConfirm, Reasons := ["risk signals present"],
        Signals := riskSignals h (cmd :: rest) ctx p (strings.ToLower h cmd)
          (extractTargets (cmd :: rest)),
        PreviewHint := previewHint h (cmd :: rest) (strings.ToLower h cmd)
          (extractTargets (cmd :: rest)),
        SaferAlternative := suggestAlternative (strings.ToLower h cmd)
          (previewHint h (cmd :: rest) (strings.ToLower h cmd)
            (extractTargets (cmd :: rest))) } := by
  rw [Evaluate_of_not_hardBlocked h cmd rest ctx p hnb]
  have hne : (riskSignals h (cmd :: rest) ctx p (strings.ToLower h cmd)
      (extractTargets (cmd :: rest))) ≠ [] := List.ne_nil_of_mem hsig
  simp [hna, hne]

/-- C15: an `rm` command that tier 1 does not answer and that no allow-list entry
matches gets CONFIRM with `mutating command` among its signals and a preview hint of kind
`rm` that carries the argument vector and, as targets, the arguments after `args[0]`
that do not start with `-`, with everything after a literal `--` included verbatim. -/
theorem evaluate_rm_confirm (h : Host) (ctx : contextinfo.Info) (p : policy.Policy)
    (cmd : String) (rest : List String)
    (hrm : strings.ToLower h cmd = "rm")
    (hnb : hardBlocked h (cmd :: rest) ctx p = false)
    (hna : inAllowList h (cmd :: rest) p.AllowCommands = false) :
    (Evaluate h (cmd :: rest) ctx p).Decision = DecisionConfirm ∧
    "mutating command" ∈ (Evaluate h (cmd :: rest) ctx p).Signals ∧
    (Evaluate h (cmd :: rest) ctx p).PreviewHint =
      some { Kind := preview.HintRM, Args := cmd :: rest,
             Targets := extractTargetsSpec (cmd :: rest) } := by
  have hmut : "mutating command" ∈ riskSignals h (cmd :: rest) ctx p
      (strings.ToLower h cmd) (extractTargets (cmd :: rest)) :=
    mem_riskSignals_of_mutating h _ ctx p _ _ (by rw [hrm]; decide)
  have hgit : isGitClean (cmd :: rest) = false := by
    have hc : cmd ≠ "git" := by
      intro hc
      rw [hc, strings.ToLower_git] at hrm
      exact absurd hrm (by decide)
    cases rest <;> simp [isGitClean, hc]
  rw [Evaluate_confirm_of_signal h cmd rest ctx p _ hnb hna hmut]
  refine ⟨rfl, hmut, ?_⟩
  simp [previewHint, hrm, hgit, extractTargets_eq_spec]

/-- The command `rm foo` in the sample repository is confirmed with the target `foo`. -/
theorem evaluate_rm_confirm_witness :
    (Evaluate sampleHost ["rm", "foo"] sampleCtx samplePolicy).Decision = "CONFIRM" ∧
    "mutating command" ∈ (Evaluate sampleHost ["rm", "foo"] sampleCtx samplePolicy).Signals ∧
    (Evaluate sampleHost ["rm", "foo"] sampleCtx samplePolicy).PreviewHint =
      some { Kind := "rm", Args := ["rm", "foo"], Targets := ["foo"] } :=
  evaluate_rm_confirm sampleHost sampleCtx samplePolicy "rm" ["foo"] rfl (by decide)
    (by decide)

/-! ## The risk conditions of the code and of the specification -/

theorem strings.HasPrefix_dotdot_of_slash (rel : String)
    (hp : strings.HasPrefix rel "../" = true) : strings.HasPrefix rel ".." = true := by
  simp only [strings.HasPrefix, List.isPrefixOf_iff_prefix] at *
  exact (show "..".data <+: "../".data from ⟨['/'], rfl⟩).trans hp

theorem strings.HasPrefix_dotdot_of_eq (rel : String) (he : rel = "..") :
    strings.HasPrefix rel ".." = true := by
  subst he
  decide

theorem strings.not_HasPrefix_dotdot_of_dot (rel : String) (he : rel = ".") :
    strings.HasPrefix rel ".." = false := by
  subst he
  decide

theorem contextinfo.IsInsideRepo_eq_rel (h : Host) (repoRoot path : String) :
    contextinfo.IsInsideRepo h repoRoot path =
      match relativeToRoot h repoRoot path with
      | none => false
      | some rel => !strings.HasPrefix rel ".." := by
  unfold contextinfo.IsInsideRepo relativeToRoot
  by_cases hr : repoRoot = ""
  · simp [hr]
  · simp only [hr, if_false]
    cases h.abs repoRoot with
    | none => rfl
    | some absRepo =>
      cases h.abs path with
      | none => rfl
      | some absPath =>
        simp only [Option.some_bind]
        cases hrel : h.rel absRepo absPath with
        | none => rfl
        | some rel =>
          by_cases hd : rel = "."
          · simp [hd, strings.not_HasPrefix_dotdot_of_dot]
          · simp [hd]

theorem contextinfo.IsInsideRepo_eq_spec (h : Host) (repoRoot path : String) :
    contextinfo.IsInsideRepo h repoRoot path =
      (withinRepoSpec h repoRoot path && !dotDotName h repoRoot path) := by
  rw [contextinfo.IsInsideRepo_eq_rel]
  unfold withinRepoSpec dotDotName
  cases relativeToRoot h repoRoot path with
  | none => rfl
  | some rel =>
    by_cases h1 : rel = ".."
    · simp [h1, strings.HasPrefix_dotdot_of_eq]
    · by_cases h2 : strings.HasPrefix rel "../" = true
      · simp [h1, h2, strings.HasPrefix_dotdot_of_slash rel h2]
      · cases h3 : strings.HasPrefix rel ".." <;> simp [h1, h2, h3]

theorem contextinfo.IsInsideRepo_eq_false_iff (h : Host) (repoRoot path : String) :
    contextinfo.IsInsideRepo h repoRoot path = false ↔
      ∀ rel ∈ relativeToRoot h repoRoot path, strings.HasPrefix rel ".." = true := by
  rw [contextinfo.IsInsideRepo_eq_rel]
  cases relativeToRoot h repoRoot path with
  | none => simp
  | some rel => simp

theorem protectedCandidate_eq_spec (h : Host) (p : String) :
    protectedCandidate h p = (expandPatternSpec h p).getD p := by
  rcases p with ⟨data⟩
  unfold expandPatternSpec
  split
  · next rest hd =>
    simp only at hd
    subst hd
    simp [protectedCandidate, strings.HasPrefix, strings.TrimPrefix]
  · next name hd =>
    simp only at hd
    subst hd
    by_cases he : h.getenv (String.mk name) = ""
    · simp [protectedCandidate, strings.HasPrefix, strings.TrimPrefix, he]
    · simp [protectedCandidate, strings.HasPrefix, strings.TrimPrefix, he]
  · next h1 h2 =>
    simp only at h1 h2
    have n1 : strings.HasPrefix ⟨data⟩ "~" = false := by
      cases data with
      | nil => rfl
      | cons c rest =>
        by_cases hc : c = '~'
        · exact absurd (by rw [hc]) (h1 rest)
        · have hc2 : ¬ '~' = c := fun e => hc e.symm
          simp [strings.HasPrefix, List.isPrefixOf]
          exact hc2
    have n2 : strings.HasPrefix ⟨data⟩ "$" = false := by
      cases data with
      | nil => rfl
      | cons c rest =>
        by_cases hc : c = '$'
        · exact absurd (by rw [hc]) (h2 rest)
        · have hc2 : ¬ '$' = c := fun e => hc e.symm
          simp [strings.HasPrefix, List.isPrefixOf]
          exact hc2
    simp [protectedCandidate, n1, n2]

theorem expandPatternSpec_eq_some (h : Host) (p pre : String)
    (he : expandPatternSpec h p = some pre) : protectedCandidate h p = pre := by
  rw [protectedCandidate_eq_spec, he]
  rfl

theorem isMutatingCommand_eq_spec (cmd : String) :
    isMutatingCommand cmd = decide (cmd ∈ mutatingNames) := by
  rw [Bool.eq_iff_iff]
  simp only [isMutatingCommand, mutatingNames, List.mem_cons, List.mem_singleton,
    List.not_mem_nil, or_false, decide_eq_true_eq]
  split_ifs with h1 h2
  · simp only [true_iff]
    tauto
  · simp [h2]
  · simp only [Bool.false_eq_true, false_iff]
    tauto

theorem touchesProtected_eq_spec (h : Host) (targets : List String)
    (ctx : contextinfo.Info) (protectedPaths : List String) :
    touchesProtected h targets ctx protectedPaths =
      decide (∃ t ∈ targets, ∃ r ∈ contextinfo.ResolvePath h ctx.Cwd t,
        ∃ pat ∈ protectedPaths, pat ≠ "" ∧
          strings.HasPrefix r ((expandPatternSpec h pat).getD pat) = true) := by
  rw [Bool.eq_iff_iff]
  simp only [touchesProtected, List.any_eq_true, decide_eq_true_eq, Option.mem_def]
  constructor
  · rintro ⟨t, ht, hm⟩
    cases hres : contextinfo.ResolvePath h ctx.Cwd t with
    | none => simp [hres] at hm
    | some r =>
      simp only [hres, List.any_eq_true] at hm
      obtain ⟨pat, hpat, hp⟩ := hm
      by_cases hne : pat = ""
      · simp [hne] at hp
      · rw [if_neg hne, protectedCandidate_eq_spec] at hp
        exact ⟨t, ht, r, hres, pat, hpat, hne, hp⟩
  · rintro ⟨t, ht, r, hres, pat, hpat, hne, hp⟩
    refine ⟨t, ht, ?_⟩
    simp only [hres, List.any_eq_true]
    refine ⟨pat, hpat, ?_⟩
    rw [if_neg hne, protectedCandidate_eq_spec]
    exact hp

theorem hasForceFlag_eq_spec (args : List String) :
    hasForceFlag args = decide (∃ a ∈ args, a ∈ forceFlags) := by
  rw [Bool.eq_iff_iff]
  simp [hasForceFlag, forceFlags, or_assoc]

theorem isOutsideRepo_eq_spec (h : Host) (targets : List String) (ctx : contextinfo.Info) :
    isOutsideRepo h targets ctx =
      decide (if ctx.InRepo = true then
        ∃ t ∈ targets, ∃ r ∈ contextinfo.ResolvePath h ctx.Cwd t,
          ∀ rel ∈ relativeToRoot h ctx.RepoRoot r, strings.HasPrefix rel ".." = true
      else targets ≠ []) := by
  rw [Bool.eq_iff_iff]
  unfold isOutsideRepo
  cases hin : ctx.InRepo with
  | false =>
    cases targets <;> simp
  | true =>
    simp only [Bool.not_true, Bool.false_eq_true, if_false, if_true, List.any_eq_true,
      decide_eq_true_eq, Option.mem_def]
    constructor
    · rintro ⟨t, ht, hm⟩
      cases hres : contextinfo.ResolvePath h ctx.Cwd t with
      | none => simp [hres] at hm
      | some r =>
        simp only [hres, Bool.not_eq_true'] at hm
        exact ⟨t, ht, r, hres, (contextinfo.IsInsideRepo_eq_false_iff h _ _).1 hm⟩
    · rintro ⟨t, ht, r, hres, hm⟩
      refine ⟨t, ht, ?_⟩
      simp only [hres, Bool.not_eq_true']
      exact (contextinfo.IsInsideRepo_eq_false_iff h _ _).2 hm

theorem isNetworkEgress_eq_spec (cmd : String) (list : List String) :
    isNetworkEgress cmd list = decide (cmd ∈ list) := by
  rw [Bool.eq_iff_iff]
  simp only [isNetworkEgress, List.any_eq_true, beq_iff_eq, decide_eq_true_eq]
  constructor
  · rintro ⟨c, hc, rfl⟩
    exact hc
  · intro hm
    exact ⟨cmd, hm, rfl⟩

theorem isPackageManager_eq_spec (cmd : String) (list : List String) :
    isPackageManager cmd list = decide (cmd ∈ list) := by
  rw [Bool.eq_iff_iff]
  simp only [isPackageManager, List.any_eq_true, beq_iff_eq, decide_eq_true_eq]
  constructor
  · rintro ⟨c, hc, rfl⟩
    exact hc
  · intro hm
    exact ⟨cmd, hm, rfl⟩

theorem isFindDelete_eq_spec (h : Host) (args : List String) :
    isFindDelete h args =
      decide (strings.ToLower h (args.headD "") = "find" ∧ "-delete" ∈ args.tail) := by
  rw [Bool.eq_iff_iff]
  cases args with
  | nil => simp [isFindDelete]
  | cons a0 rest =>
    by_cases hf : strings.ToLower h a0 = "find"
    · simp [isFindDelete, hf]
    · simp [isFindDelete, hf]


/-- C16, as the code has it: `ls /etc` names a target below the protected path `/etc`,
is not hard-blocked and, being on the allow list, is answered with ALLOW and no signal;
and a pattern that is the empty string protects nothing. -/
theorem allow_list_hides_protected_path :
    hardBlocked sampleHost ["ls", "/etc"] sampleCtx samplePolicy = false ∧
    contextinfo.ResolvePath sampleHost sampleCtx.Cwd "/etc" = some "/etc" ∧
    strings.HasPrefix "/etc" (protectedCandidate sampleHost "/etc") = true ∧
    Evaluate sampleHost ["ls", "/etc"] sampleCtx samplePolicy =
      { Decision := "ALLOW", Reasons := ["allowlisted read-only command"] } ∧
    Evaluate sampleHost ["cat", "notes"] sampleCtx { samplePolicy with ProtectedPaths := [""] } =
      { Decision := "ALLOW", Reasons := ["no risk signals"] } := by
  decide

/-- C16, amended: on a command that tier 1 does not answer and that no allow-list entry
matches, a target that resolves to a path with, as a prefix, what a non-empty
protected-path pattern stands for makes the verdict CONFIRM, not ALLOW, with the signal
`touches protected path`; a pattern that starts with `~` stands for the home directory
joined with the rest of the pattern, a pattern `$NAME` whose variable has a value for
that value, and a pattern that starts with neither for itself. -/
theorem evaluate_protected_path_signal (h : Host) (ctx : contextinfo.Info)
    (p : policy.Policy) (cmd : String) (rest : List String)
    (hnb : hardBlocked h (cmd :: rest) ctx p = false)
    (hna : inAllowList h (cmd :: rest) p.AllowCommands = false)
    (htouch : ∃ t ∈ extractTargetsSpec (cmd :: rest), ∃ resolved,
      contextinfo.ResolvePath h ctx.Cwd t = some resolved ∧
      ∃ pat ∈ p.ProtectedPaths, pat ≠ "" ∧ ∃ expansion,
        expandPatternSpec h pat = some expansion ∧
        strings.HasPrefix resolved expansion = true) :
    (Evaluate h (cmd :: rest) ctx p).Decision = DecisionConfirm ∧
    (Evaluate h (cmd :: rest) ctx p).Decision ≠ DecisionAllow ∧
    "touches protected path" ∈ (Evaluate h (cmd :: rest) ctx p).Signals := by
  obtain ⟨t, ht, resolved, hres, pat, hpat, hne, expansion, hexp, hpre⟩ := htouch
  rw [← extractTargets_eq_spec] at ht
  have htp : touchesProtected h (extractTargets (cmd :: rest)) ctx p.ProtectedPaths = true := by
    simp only [touchesProtected, List.any_eq_true]
    refine ⟨t, ht, ?_⟩
    simp only [hres, List.any_eq_true]
    exact ⟨pat, hpat, by simp [hne, expandPatternSpec_eq_some h pat expansion hexp, hpre]⟩
  have hsig := mem_riskSignals_of_protected h (cmd :: rest) ctx p (strings.ToLower h cmd)
    (extractTargets (cmd :: rest)) htp
  rw [Evaluate_confirm_of_signal h cmd rest ctx p _ hnb hna hsig]
  exact ⟨rfl, confirm_ne_allow, hsig⟩

/-- The command `cat /etc/passwd` touches the literal pattern `/etc`; with the home
directory at `/home/op`, the command `cat ~/.ssh/id_rsa` touches the pattern `~/.ssh`;
and with `HOME` set to `/home/op` the command `cat /home/op/notes` touches the pattern
`$HOME`. -/
theorem evaluate_protected_path_signal_witness :
    ((Evaluate sampleHost ["cat", "/etc/passwd"] sampleCtx samplePolicy).Decision = "CONFIRM" ∧
     (Evaluate sampleHost ["cat", "/etc/passwd"] sampleCtx samplePolicy).Decision ≠ "ALLOW" ∧
     "touches protected path" ∈
       (Evaluate sampleHost ["cat", "/etc/passwd"] sampleCtx samplePolicy).Signals) ∧
    ((Evaluate envHost ["cat", "~/.ssh/id_rsa"] sampleCtx
        { samplePolicy with ProtectedPaths := ["~/.ssh"] }).Decision = "CONFIRM" ∧
     (Evaluate envHost ["cat", "~/.ssh/id_rsa"] sampleCtx
        { samplePolicy with ProtectedPaths := ["~/.ssh"] }).Decision ≠ "ALLOW" ∧
     "touches protected path" ∈
       (Evaluate envHost ["cat", "~/.ssh/id_rsa"] sampleCtx
         { samplePolicy with ProtectedPaths := ["~/.ssh"] }).Signals) ∧
    ((Evaluate envHost ["cat", "/home/op/notes"] sampleCtx
        { samplePolicy with ProtectedPaths := ["$HOME"] }).Decision = "CONFIRM" ∧
     (Evaluate envHost ["cat", "/home/op/notes"] sampleCtx
        { samplePolicy with ProtectedPaths := ["$HOME"] }).Decision ≠ "ALLOW" ∧
     "touches protected path" ∈
       (Evaluate envHost ["cat", "/home/op/notes"] sampleCtx
         { samplePolicy with ProtectedPaths := ["$HOME"] }).Signals) :=
  ⟨evaluate_protected_path_signal sampleHost sampleCtx samplePolicy "cat" ["/etc/passwd"]
     (by decide) (by decide)
     ⟨"/etc/passwd", by decide, "/etc/passwd", by decide, "/etc", by decide, by decide,
       "/etc", by decide, by decide⟩,
   evaluate_protected_path_signal envHost sampleCtx
     { samplePolicy with ProtectedPaths := ["~/.ssh"] } "cat" ["~/.ssh/id_rsa"]
     (by decide) (by decide)
     ⟨"~/.ssh/id_rsa", by decide, "/home/op/.ssh/id_rsa", by decide, "~/.ssh", by decide,
       by decide, "/home/op/.ssh", by decide, by decide⟩,
   evaluate_protected_path_signal envHost sampleCtx
     { samplePolicy with ProtectedPaths := ["$HOME"] } "cat" ["/home/op/notes"]
     (by decide) (by decide)
     ⟨"/home/op/notes", by decide, "/home/op/notes", by decide, "$HOME", by decide,
       by decide, "/home/op", by decide, by decide⟩⟩

/-- A pattern `$HOME/.ssh` names the environment variable `HOME/.ssh`, which has no
value, and is compared as it stands: with `HOME` set to `/home/op`, a repository at
`/home/op` and this pattern as the only protected path, `cat .ssh/id_rsa` is allowed
without a risk signal. -/
theorem dollar_pattern_with_path_not_expanded :
    expandPatternSpec envHost "$HOME/.ssh" = none ∧
    protectedCandidate envHost "$HOME/.ssh" = "$HOME/.ssh" ∧
    contextinfo.ResolvePath envHost homeCtx.Cwd ".ssh/id_rsa" = some "/home/op/.ssh/id_rsa" ∧
    Evaluate envHost ["cat", ".ssh/id_rsa"] homeCtx
        { samplePolicy with ProtectedPaths := ["$HOME/.ssh"] } =
      { Decision := "ALLOW", Reasons := ["no risk signals"] } := by
  decide


/-! ## The catastrophic-rm and git-clean rules, revisited -/

/-- C17, as the code has it: `rm -rf /repo/build /` carries a recursive flag and two
targets that resolve; the target `/repo/build` is neither the root nor the home directory
and lies inside the repository, and still the catastrophic-rm rule fires, because the
other target is the root.  The recursive flags `-R` and `--recursive` are not among the
tokens the rule looks for: `rm -R /` and `rm --recursive /` are not hard-blocked.  And a
file named `..foo` in the root of the repository is taken to lie outside of it:
`rm -r ..foo` is hard-blocked. -/
theorem catastrophic_rm_fires_on_one_target :
    contextinfo.ResolvePath sampleHost sampleCtx.Cwd "/repo/build" = some "/repo/build" ∧
    contextinfo.ResolvePath sampleHost sampleCtx.Cwd "/" = some "/" ∧
    "/repo/build" ≠ "/" ∧ some "/repo/build" ≠ sampleHost.userHomeDir ∧
    contextinfo.IsInsideRepo sampleHost sampleCtx.RepoRoot "/repo/build" = true ∧
    isCatastrophicRm sampleHost "rm" ["rm", "-rf", "/repo/build", "/"] sampleCtx = true ∧
    Evaluate sampleHost ["rm", "-rf", "/repo/build", "/"] sampleCtx samplePolicy =
      { Decision := "BLOCK", Hard := true, Reasons := ["catastrophic rm target"],
        SaferAlternative := "narrow path or remove -rf" } ∧
    isCatastrophicRm sampleHost "rm" ["rm", "-R", "/"] sampleCtx = false ∧
    (Evaluate sampleHost ["rm", "-R", "/"] sampleCtx samplePolicy).Decision = "CONFIRM" ∧
    (Evaluate sampleHost ["rm", "--recursive", "/"] sampleCtx samplePolicy).Decision =
      "CONFIRM" ∧
    contextinfo.ResolvePath sampleHost sampleCtx.Cwd "..foo" = some "/repo/..foo" ∧
    relativeToRoot sampleHost sampleCtx.RepoRoot "/repo/..foo" = some "..foo" ∧
    withinRepoSpec sampleHost sampleCtx.RepoRoot "/repo/..foo" = true ∧
    Evaluate sampleHost ["rm", "-r", "..foo"] sampleCtx samplePolicy =
      { Decision := "BLOCK", Hard := true, Reasons := ["catastrophic rm target"],
        SaferAlternative := "narrow path or remove -rf" } := by
  decide

theorem hasFlag_iff_mem (args : List String) (flag : String) :
    hasFlag args flag = true ↔ flag ∈ args := by
  simp only [hasFlag, List.any_eq_true, beq_iff_eq]
  constructor
  · rintro ⟨a, ha, rfl⟩
    exact ha
  · intro hm
    exact ⟨flag, hm, rfl⟩

/-- C17, amended: for an `rm` command none of whose targets resolves to a path that,
relative to the repository root, starts with `..` without leaving the root, the
catastrophic-rm rule fires exactly when an argument is one of the tokens `-r`, `-rf` and
`-fr` and some target resolves to the root, to the home directory `os.UserHomeDir`
reports (the empty string when it fails) or, inside a repository, to a path that is not
within the repository root; when the block list does not match `rm`, that is exactly
when `Evaluate` returns the catastrophic-rm verdict. -/
theorem catastrophic_rm_iff_some_target (h : Host) (ctx : contextinfo.Info)
    (p : policy.Policy) (cmd : String) (rest : List String)
    (hrm : strings.ToLower h cmd = "rm")
    (hnames : ∀ t ∈ extractTargetsSpec (cmd :: rest),
      ∀ r ∈ contextinfo.ResolvePath h ctx.Cwd t, dotDotName h ctx.RepoRoot r = false) :
    isCatastrophicRm h (strings.ToLower h cmd) (cmd :: rest) ctx =
      catastrophicRmSpec h (cmd :: rest) ctx ∧
    (inListPrefix h "rm" p.BlockCommands = false →
      (Evaluate h (cmd :: rest) ctx p =
          { Decision := DecisionBlock, Hard := true, Reasons := ["catastrophic rm target"],
            Signals := [], PreviewHint := none,
            SaferAlternative := "narrow path or remove -rf" } ↔
        catastrophicRmSpec h (cmd :: rest) ctx = true)) := by
  have hcat : isCatastrophicRm h (strings.ToLower h cmd) (cmd :: rest) ctx =
      catastrophicRmSpec h (cmd :: rest) ctx := by
    rw [Bool.eq_iff_iff, hrm]
    simp only [catastrophicRmSpec, decide_eq_true_eq, Option.mem_def]
    by_cases hf : (hasFlag (cmd :: rest) "-r" || hasFlag (cmd :: rest) "-rf" ||
        hasFlag (cmd :: rest) "-fr") = true
    · have hf2 : "-r" ∈ cmd :: rest ∨ "-rf" ∈ cmd :: rest ∨ "-fr" ∈ cmd :: rest := by
        simpa only [Bool.or_eq_true, hasFlag_iff_mem, or_assoc] using hf
      simp only [isCatastrophicRm, hf, ne_eq, not_true_eq_false, if_false, Bool.not_true,
        Bool.false_eq_true, List.any_eq_true, hf2, true_and]
      rw [← extractTargets_eq_spec] at hnames ⊢
      constructor
      · rintro ⟨t, ht, hbad⟩
        cases hres : contextinfo.ResolvePath h ctx.Cwd t with
        | none => simp [hres] at hbad
        | some resolved =>
          refine ⟨t, ht, resolved, hres, ?_⟩
          simp only [hres] at hbad
          by_cases h1 : resolved = "/"
          · exact Or.inl h1
          · by_cases h2 : resolved = h.userHomeDir.getD ""
            · exact Or.inr (Or.inl h2)
            · right; right
              have hd := hnames t ht resolved hres
              simpa [h1, h2, contextinfo.IsInsideRepo_eq_spec, hd] using hbad
      · rintro ⟨t, ht, resolved, hres, hbad⟩
        refine ⟨t, ht, ?_⟩
        have hd := hnames t ht resolved hres
        simp only [hres]
        rcases hbad with h1 | h1 | ⟨h1, h2⟩
        · simp [h1]
        · by_cases h0 : resolved = "/"
          · simp [h0]
          · simp [h0, h1]
        · by_cases h0 : resolved = "/"
          · simp [h0]
          · by_cases h3 : resolved = h.userHomeDir.getD ""
            · simp [h0, h3]
            · simp [h0, h3, h1, h2, contextinfo.IsInsideRepo_eq_spec, hd]
    · have hf2 : ¬ ("-r" ∈ cmd :: rest ∨ "-rf" ∈ cmd :: rest ∨ "-fr" ∈ cmd :: rest) := by
        simpa only [Bool.or_eq_true, hasFlag_iff_mem, or_assoc] using hf
      simp only [Bool.not_eq_true] at hf
      simp only [isCatastrophicRm, hf, ne_eq, not_true_eq_false, if_false, Bool.not_false,
        if_true, Bool.false_eq_true, false_iff, not_and]
      intro hflag
      exact absurd hflag hf2
  refine ⟨hcat, ?_⟩
  intro hb
  rw [← hcat]
  cases hc : isCatastrophicRm h (strings.ToLower h cmd) (cmd :: rest) ctx
  · simp only [Evaluate, hrm, hb]
    rw [hrm] at hc
    simp only [hc]
    split_ifs <;> first | contradiction | simp [DecisionBlock, DecisionAllow, DecisionConfirm]
  · rw [hrm] at hc
    simp [Evaluate, hrm, hb, hc]

/-- The rule fires on `rm -rf /repo/build /`, and `Evaluate` answers with the
catastrophic-rm verdict; it is silent on `rm -rf /repo/build` and on `rm -R /`. -/
theorem catastrophic_rm_iff_some_target_witness :
    (isCatastrophicRm sampleHost "rm" ["rm", "-rf", "/repo/build", "/"] sampleCtx = true ∧
     Evaluate sampleHost ["rm", "-rf", "/repo/build", "/"] sampleCtx samplePolicy =
       { Decision := "BLOCK", Hard := true, Reasons := ["catastrophic rm target"],
         SaferAlternative := "narrow path or remove -rf" }) ∧
    isCatastrophicRm sampleHost "rm" ["rm", "-rf", "/repo/build"] sampleCtx = false ∧
    isCatastrophicRm sampleHost "rm" ["rm", "-R", "/"] sampleCtx = false :=
  ⟨⟨(catastrophic_rm_iff_some_target sampleHost sampleCtx samplePolicy "rm"
        ["-rf", "/repo/build", "/"] rfl (by decide)).1.trans (by decide),
    ((catastrophic_rm_iff_some_target sampleHost sampleCtx samplePolicy "rm"
        ["-rf", "/repo/build", "/"] rfl (by decide)).2 (by decide)).2 (by decide)⟩,
   (catastrophic_rm_iff_some_target sampleHost sampleCtx samplePolicy "rm"
      ["-rf", "/repo/build"] rfl (by decide)).1.trans (by decide),
   (catastrophic_rm_iff_some_target sampleHost sampleCtx samplePolicy "rm"
      ["-R", "/"] rfl (by decide)).1.trans (by decide)⟩

/-- C18, as the code has it: `git clean -xdf` and `git clean -dfx`, with no dry-run flag
and no path, are not blocked: the verdict is CONFIRM. -/
theorem git_clean_other_order_not_blocked :
    isUnsafeGitClean ["git", "clean", "-xdf"] = false ∧
    (Evaluate sampleHost ["git", "clean", "-xdf"] sampleCtx samplePolicy).Decision = "CONFIRM" ∧
    (Evaluate sampleHost ["git", "clean", "-xdf"] sampleCtx samplePolicy).Hard = false ∧
    (Evaluate sampleHost ["git", "clean", "-dfx"] sampleCtx samplePolicy).Decision = "CONFIRM" ∧
    (Evaluate sampleHost ["git", "clean", "-dfx"] sampleCtx samplePolicy).Hard = false := by
  decide

/-- C18, amended: for a `git clean` command with neither a `-n`/`--dry-run` argument nor
a path argument, and a block list that does not match `git`, `Evaluate` returns BLOCK
exactly when the space-joined command line contains the letters of the flag in the order
`-fdx`, and then the verdict is hard; when the command line does not contain `-fdx`, the
verdict is the ALLOW of the allow list if an allow-list entry matches the command, and
otherwise it is CONFIRM, not hard, with the signal `mutating command`. -/
theorem git_clean_blocked_iff_literal_fdx (h : Host) (ctx : contextinfo.Info)
    (p : policy.Policy) (rest : List String)
    (hblk : inListPrefix h "git" p.BlockCommands = false)
    (hdry : ∀ a ∈ rest, a ≠ "-n" ∧ a ≠ "--dry-run")
    (hflags : ∀ a ∈ rest, strings.HasPrefix a "-" = true) :
    ((Evaluate h ("git" :: "clean" :: rest) ctx p).Decision = DecisionBlock ↔
      strings.Contains (strings.Join ("git" :: "clean" :: rest) " ") "-fdx" = true) ∧
    ((Evaluate h ("git" :: "clean" :: rest) ctx p).Decision = DecisionBlock →
      (Evaluate h ("git" :: "clean" :: rest) ctx p).Hard = true) ∧
    (strings.Contains (strings.Join ("git" :: "clean" :: rest) " ") "-fdx" = false →
      (inAllowList h ("git" :: "clean" :: rest) p.AllowCommands = true →
        Evaluate h ("git" :: "clean" :: rest) ctx p =
          { Decision := DecisionAllow, Hard := false,
            Reasons := ["allowlisted read-only command"], Signals := [],
            PreviewHint := none, SaferAlternative := "" }) ∧
      (inAllowList h ("git" :: "clean" :: rest) p.AllowCommands = false →
        (Evaluate h ("git" :: "clean" :: rest) ctx p).Decision = DecisionConfirm ∧
        (Evaluate h ("git" :: "clean" :: rest) ctx p).Hard = false ∧
        "mutating command" ∈ (Evaluate h ("git" :: "clean" :: rest) ctx p).Signals)) := by
  have h1 : (rest.any fun a => a == "-n" || a == "--dry-run") = false := by
    rw [List.any_eq_false]
    intro a ha
    simp [(hdry a ha).1, (hdry a ha).2]
  have h2 : (rest.any fun a => !strings.HasPrefix a "-") = false := by
    rw [List.any_eq_false]
    intro a ha
    simp [hflags a ha]
  have hu : isUnsafeGitClean ("git" :: "clean" :: rest) =
      strings.Contains (strings.Join ("git" :: "clean" :: rest) " ") "-fdx" := by
    cases hc : strings.Contains (strings.Join ("git" :: "clean" :: rest) " ") "-fdx" <;>
      simp [isUnsafeGitClean, isGitClean_cons, hc, h1, h2]
  have hhb : hardBlocked h ("git" :: "clean" :: rest) ctx p =
      strings.Contains (strings.Join ("git" :: "clean" :: rest) " ") "-fdx" := by
    simp [hardBlocked, strings.ToLower_git, hblk, isCatastrophicRm_git,
      isUnsafeGitReset_clean, hu]
  refine ⟨?_, ?_, ?_⟩
  · rw [Evaluate_block_iff, hhb]
  · intro hd
    rcases Evaluate_decision h ("git" :: "clean" :: rest) ctx p with hE | hE | hE
    · exact hE.2
    · rw [hE.1] at hd; exact absurd hd allow_ne_block
    · rw [hE.1] at hd; exact absurd hd confirm_ne_block
  · intro hc
    rw [← hhb] at hc
    constructor
    · intro ha
      rw [Evaluate_of_not_hardBlocked h "git" ("clean" :: rest) ctx p hc, if_pos ha]
    · intro ha
      have hmut : "mutating command" ∈ riskSignals h ("git" :: "clean" :: rest) ctx p
          (strings.ToLower h "git") (extractTargets ("git" :: "clean" :: rest)) :=
        mem_riskSignals_of_mutating h _ ctx p _ _ (by rw [strings.ToLower_git]; decide)
      rw [Evaluate_confirm_of_signal h "git" ("clean" :: rest) ctx p _ hc ha hmut]
      exact ⟨rfl, rfl, hmut⟩

/-- The tokens `-fdx` and `-fdxq` are caught; the token `-xdf` is not, and
`git clean -xdf` is confirmed under the sample policy and allowed under a policy with
`git clean` on its allow list. -/
theorem git_clean_blocked_iff_literal_fdx_witness :
    (Evaluate sampleHost ["git", "clean", "-fdxq"] sampleCtx samplePolicy).Decision = "BLOCK" ∧
    (Evaluate sampleHost ["git", "clean", "-xdf"] sampleCtx samplePolicy).Decision ≠ "BLOCK" ∧
    ((Evaluate sampleHost ["git", "clean", "-xdf"] sampleCtx samplePolicy).Decision =
        "CONFIRM" ∧
      (Evaluate sampleHost ["git", "clean", "-xdf"] sampleCtx samplePolicy).Hard = false ∧
      "mutating command" ∈
        (Evaluate sampleHost ["git", "clean", "-xdf"] sampleCtx samplePolicy).Signals) ∧
    Evaluate sampleHost ["git", "clean", "-xdf"] sampleCtx
        { samplePolicy with AllowCommands := ["git clean"] } =
      { Decision := "ALLOW", Reasons := ["allowlisted read-only command"] } :=
  ⟨((git_clean_blocked_iff_literal_fdx sampleHost sampleCtx samplePolicy ["-fdxq"]
      (by decide) (by decide) (by decide)).1).2 (by decide),
   fun hd => absurd (((git_clean_blocked_iff_literal_fdx sampleHost sampleCtx samplePolicy
      ["-xdf"] (by decide) (by decide) (by decide)).1).1 hd) (by decide),
   ((git_clean_blocked_iff_literal_fdx sampleHost sampleCtx samplePolicy ["-xdf"]
      (by decide) (by decide) (by decide)).2.2 (by decide)).2 (by decide),
   ((git_clean_blocked_iff_literal_fdx sampleHost sampleCtx
      { samplePolicy with AllowCommands := ["git clean"] } ["-xdf"]
      (by decide) (by decide) (by decide)).2.2 (by decide)).1 (by decide)⟩


/-! ## The execution step and the break-glass check -/

theorem executeAndRecord_eq (w : World) (a : String) (rest : List String)
    (ctx : contextinfo.Info) (logger : audit.Logger) (e : audit.Entry) :
    executeAndRecord w (a :: rest) ctx logger e =
      match w.cmdRun (a :: rest) ctx.Cwd with
      | .success =>
        recordAndReturn w logger { e with ExitCode := 0, Outcome := "executed" } [a :: rest]
          (.value 0 none)
      | .exitError code msg =>
        recordAndReturn w logger { e with ExitCode := code, Outcome := "failed", Error := msg }
          [a :: rest] (.value code (some msg))
      | .failure msg =>
        recordAndReturn w logger { e with ExitCode := 1, Outcome := "failed", Error := msg }
          [a :: rest] (.value 1 (some msg)) := by
  simp only [executeAndRecord, execute]
  cases w.cmdRun (a :: rest) ctx.Cwd <;> rfl

theorem executeAndRecord_nil (w : World) (ctx : contextinfo.Info) (logger : audit.Logger)
    (e : audit.Entry) : (executeAndRecord w [] ctx logger e).executions = [] := rfl

theorem finish_cases (w : World) (args : List String) (opts : RunOptions)
    (ctx : contextinfo.Info) (logger : audit.Logger) (e : audit.Entry) :
    (finish w args opts ctx logger e).executions = [] ∨
    ∃ e0, finish w args opts ctx logger e = executeAndRecord w args ctx logger e0 := by
  simp only [finish]
  split_ifs
  · exact Or.inl rfl
  · exact Or.inr ⟨_, rfl⟩
  · exact Or.inr ⟨_, rfl⟩

theorem decideAndFinish_cases (w : World) (args : List String) (opts : RunOptions)
    (ctx : contextinfo.Info) (logger : audit.Logger) (v : classifier.Result)
    (e : audit.Entry) :
    (decideAndFinish w args opts ctx logger v e).executions = [] ∨
    ∃ e0, decideAndFinish w args opts ctx logger v e =
      executeAndRecord w args ctx logger e0 := by
  by_cases hb : v.Decision = DecisionBlock
  · rw [decideAndFinish_block _ _ _ _ _ _ _ hb]
    exact Or.inl rfl
  · by_cases hv : v.Decision = DecisionConfirm
    · by_cases hok : opts.AutoYes = true ∨ ui.Confirm w.host w.confirmLine = true
      · rw [decideAndFinish_approved _ _ _ _ _ _ _ hv hok]
        exact finish_cases _ _ _ _ _ _
      · simp only [not_or, Bool.not_eq_true] at hok
        rw [decideAndFinish_refused _ _ _ _ _ _ _ hv hok.1 hok.2]
        exact Or.inl rfl
    · rw [decideAndFinish_allow _ _ _ _ _ _ _ hb hv]
      exact finish_cases _ _ _ _ _ _

/-- C12: whenever setup succeeds and `Run` reaches the execution step, it records one
entry and returns the exit code written to that entry: 0 with outcome `executed` and a
nil error when the child exits with status 0; the code of the `ExitError`, which is not
0, with outcome `failed` and the non-empty text of the error when the child exits
otherwise; and 1 with outcome `failed` when the process cannot be started. -/
theorem run_exit_code_mirrors_child (w : World) (args : List String) (opts : RunOptions)
    (ctx : contextinfo.Info) (pol : policy.Policy) (logger : audit.Logger)
    (hctx : w.detect = .ok ctx) (hpol : w.loadPolicy (policyPath w opts ctx) = .ok pol)
    (hlog : audit.New w ctx.RepoRoot = .ok logger)
    (hreach : (Run w args opts).executions ≠ [])
    (hwf : (w.cmdRun args ctx.Cwd).wellFormed = true) :
    ∃ e, (Run w args opts).recorded = [e] ∧
      (∃ err, (Run w args opts).ret = .value e.ExitCode err) ∧
      (w.cmdRun args ctx.Cwd = .success →
        (Run w args opts).ret = .value 0 none ∧ e.ExitCode = 0 ∧ e.Outcome = "executed") ∧
      (∀ code msg, w.cmdRun args ctx.Cwd = .exitError code msg →
        code ≠ 0 ∧ (Run w args opts).ret = .value code (some msg) ∧ e.ExitCode = code ∧
        e.Outcome = "failed" ∧ e.Error = msg ∧ e.Error ≠ "") ∧
      (∀ msg, w.cmdRun args ctx.Cwd = .failure msg →
        (Run w args opts).ret = .value 1 (some msg) ∧ e.ExitCode = 1 ∧
        e.Outcome = "failed") := by
  rw [Run_of_setup w args opts ctx pol logger hctx hpol hlog] at hreach ⊢
  rcases decideAndFinish_cases w args opts ctx logger (verdict w args ctx pol)
    (withPreview w ctx pol (verdict w args ctx pol)
      (newEntry w args ctx (verdict w args ctx pol))).2 with hnone | ⟨e0, he0⟩
  · exact absurd hnone hreach
  · rw [he0] at hreach ⊢
    cases args with
    | nil => exact absurd (executeAndRecord_nil w ctx logger e0) hreach
    | cons a rest =>
      rw [executeAndRecord_eq]
      cases hrun : w.cmdRun (a :: rest) ctx.Cwd with
      | success => exact ⟨_, rfl, ⟨_, rfl⟩, by simp [recordAndReturn]⟩
      | exitError code msg =>
        rw [hrun] at hwf
        simp only [CmdResult.wellFormed, Bool.and_eq_true, decide_eq_true_eq] at hwf
        refine ⟨_, rfl, ⟨_, rfl⟩, by simp, ?_, by simp⟩
        intro code1 msg1 heq
        cases heq
        exact ⟨hwf.1, rfl, rfl, rfl, rfl, hwf.2⟩
      | failure msg =>
        refine ⟨_, rfl, ⟨_, rfl⟩, by simp, by simp, ?_⟩
        intro msg1 heq
        cases heq
        exact ⟨rfl, rfl, rfl⟩

/-- The approved `rm foo` whose child exits with status 3 returns 3 and records it. -/
theorem run_exit_code_mirrors_child_witness :
    ∃ e, (Run failingCommandWorld ["rm", "foo"] {}).recorded = [e] ∧
      (Run failingCommandWorld ["rm", "foo"] {}).ret = .value 3 (some "exit status 3") ∧
      e.ExitCode = 3 ∧ e.Outcome = "failed" ∧ e.Error = "exit status 3" := by
  obtain ⟨e, hrec, _, _, hexit, _⟩ :=
    run_exit_code_mirrors_child failingCommandWorld ["rm", "foo"] {} sampleCtx samplePolicy
      { path := "/repo/.clash/audit.log" } rfl rfl rfl (by decide) (by decide)
  obtain ⟨_, hret, hcode, hout, herr, _⟩ := hexit 3 "exit status 3" rfl
  exact ⟨e, hrec, hret, hcode, hout, herr⟩

/-- C11, as the code has it: with break-glass requested, the exact phrase typed and
auto-approve off, `rm foo` is run when the operator answers the confirmation prompt with
`y` and is cancelled when the answer is `n`: the prompt is not bypassed. -/
theorem break_glass_keeps_confirmation :
    ui.RequirePhrase breakGlassYesWorld.phraseLine "break glass for clash" = true ∧
    ui.RequirePhrase breakGlassNoWorld.phraseLine "break glass for clash" = true ∧
    (verdict breakGlassYesWorld ["rm", "foo"] sampleCtx samplePolicy).Decision = "CONFIRM" ∧
    (Run breakGlassYesWorld ["rm", "foo"] { BreakGlass := true }).executions
      = [["rm", "foo"]] ∧
    (Run breakGlassNoWorld ["rm", "foo"] { BreakGlass := true }).executions = [] ∧
    (Run breakGlassNoWorld ["rm", "foo"] { BreakGlass := true }).ret
      = .value 1 (some "cancelled") := by
  decide

/-- C11, amended: when setup succeeds, break-glass is requested, the operator types the
exact phrase, the verdict is CONFIRM and auto-approve is off, the command is run exactly
when the operator answers the confirmation prompt affirmatively; a refusal cancels the
run, and an approved run records the approver `user`, the break-glass flag and the
reason given. -/
theorem break_glass_after_confirmation (w : World) (args : List String) (opts : RunOptions)
    (ctx : contextinfo.Info) (pol : policy.Policy) (logger : audit.Logger)
    (hctx : w.detect = .ok ctx) (hpol : w.loadPolicy (policyPath w opts ctx) = .ok pol)
    (hlog : audit.New w ctx.RepoRoot = .ok logger)
    (hbg : opts.BreakGlass = true) (hyes : opts.AutoYes = false)
    (hphrase : ∃ l, w.phraseLine = some l ∧ strings.TrimSpace l = "break glass for clash")
    (hconfirm : (verdict w args ctx pol).Decision = DecisionConfirm) :
    (ui.Confirm w.host w.confirmLine = false →
      (Run w args opts).executions = [] ∧
      (∃ e, (Run w args opts).recorded = [e] ∧ e.Outcome = "cancelled") ∧
      (Run w args opts).ret = .value 1 (some "cancelled")) ∧
    (ui.Confirm w.host w.confirmLine = true →
      (Run w args opts).executions = [args] ∧
      ∃ e, (Run w args opts).recorded = [e] ∧ e.ApprovedBy = "user" ∧
        e.BreakGlass = true ∧ e.BreakGlassReason = opts.BreakGlassReason) := by
  rw [Run_of_setup w args opts ctx pol logger hctx hpol hlog]
  constructor
  · intro hc
    rw [decideAndFinish_refused _ _ _ _ _ _ _ hconfirm hyes hc]
    exact ⟨rfl, ⟨_, rfl, rfl⟩, rfl⟩
  · intro hc
    obtain ⟨l, hl, htrim⟩ := hphrase
    have hreq : ui.RequirePhrase w.phraseLine "break glass for clash" = true := by
      simp [ui.RequirePhrase, hl, htrim]
    rw [decideAndFinish_approved _ _ _ _ _ _ _ hconfirm (Or.inr hc)]
    cases args with
    | nil =>
      rw [verdict_nil] at hconfirm
      exact absurd hconfirm (Ne.symm confirm_ne_block)
    | cons a rest =>
      simp only [finish, hbg, hreq, hyes, if_true, Bool.not_true, Bool.false_eq_true, if_false]
      rw [executeAndRecord_eq]
      cases w.cmdRun (a :: rest) ctx.Cwd <;> exact ⟨rfl, _, rfl, rfl, rfl, rfl⟩

/-- With the phrase typed exactly, `rm foo` is run for the answer `y` and not for `n`. -/
theorem break_glass_after_confirmation_witness :
    (Run breakGlassNoWorld ["rm", "foo"]
      { BreakGlass := true, BreakGlassReason := "outage" }).executions = [] ∧
    (Run breakGlassYesWorld ["rm", "foo"]
      { BreakGlass := true, BreakGlassReason := "outage" }).executions = [["rm", "foo"]] :=
  ⟨((break_glass_after_confirmation breakGlassNoWorld ["rm", "foo"]
      { BreakGlass := true, BreakGlassReason := "outage" } sampleCtx samplePolicy
      { path := "/repo/.clash/audit.log" } rfl rfl rfl rfl rfl
      ⟨"break glass for clash\n", rfl, by decide⟩ (by decide)).1 (by decide)).1,
   ((break_glass_after_confirmation breakGlassYesWorld ["rm", "foo"]
      { BreakGlass := true, BreakGlassReason := "outage" } sampleCtx samplePolicy
      { path := "/repo/.clash/audit.log" } rfl rfl rfl rfl rfl
      ⟨"break glass for clash\n", rfl, by decide⟩ (by decide)).2 (by decide)).1⟩


/-! ## The preview engine -/

theorem preview.previewGitClean_eq_none_iff (t : preview.Tools) (hint : preview.Hint)
    (ctx : contextinfo.Info) (sampleLimit : Int) :
    preview.previewGitClean t hint ctx sampleLimit = none ↔ hint.Args.length < 2 := by
  by_cases hlen : hint.Args.length < 2
  · simp [preview.previewGitClean, preview.gitCleanArgs, hlen]
  · simp only [preview.previewGitClean, preview.gitCleanArgs, hlen, if_false, iff_false]
    cases t.output "git" (["clean", "-nd"] ++ (hint.Args.drop 2).filter fun a =>
      !(a == "-f" || a == "--force" || a == "-n" || a == "--dry-run")) ctx.RepoRoot <;> simp

theorem preview.Run_eq_none_iff (h : Host) (t : preview.Tools) (hint : preview.Hint)
    (ctx : contextinfo.Info) (sampleLimit : Int) :
    preview.Run h t hint ctx sampleLimit = none ↔
      hint.Kind = preview.HintGitClean ∧ hint.Args.length < 2 := by
  have hrg : preview.HintRM ≠ preview.HintGitClean := by decide
  have hfg : preview.HintFindDelete ≠ preview.HintGitClean := by decide
  unfold preview.Run
  by_cases h1 : hint.Kind = preview.HintRM
  · rw [if_pos h1]
    simp [h1, hrg]
  · rw [if_neg h1]
    by_cases h2 : hint.Kind = preview.HintFindDelete
    · rw [if_pos h2]
      simp [h2, hfg]
    · rw [if_neg h2]
      by_cases h3 : hint.Kind = preview.HintGitClean
      · rw [if_pos h3, preview.previewGitClean_eq_none_iff]
        simp [h3]
      · rw [if_neg h3]
        simp [h3]

theorem isGitClean_length (args : List String) (hg : isGitClean args = true) :
    2 ≤ args.length := by
  match args, hg with
  | _ :: _ :: _, _ => simp

theorem previewHint_git_clean (h : Host) (args : List String) (lowerCmd : String)
    (targets : List String) (hint : preview.Hint)
    (hh : previewHint h args lowerCmd targets = some hint)
    (hk : hint.Kind = preview.HintGitClean) : 2 ≤ hint.Args.length := by
  have hrg : preview.HintRM ≠ preview.HintGitClean := by decide
  have hfg : preview.HintFindDelete ≠ preview.HintGitClean := by decide
  simp only [previewHint] at hh
  by_cases hg : isGitClean args = true
  · rw [if_pos hg] at hh
    cases hh
    exact isGitClean_length args hg
  · rw [if_neg hg] at hh
    by_cases hr : lowerCmd = "rm"
    · rw [if_pos hr] at hh
      cases hh
      exact absurd hk hrg
    · rw [if_neg hr] at hh
      by_cases hf : isFindDelete h args = true
      · rw [if_pos hf] at hh
        cases hh
        exact absurd hk hfg
      · rw [if_neg hf] at hh
        cases hh

theorem previewHint_runs (h : Host) (t : preview.Tools) (args : List String)
    (ctx : contextinfo.Info) (p : policy.Policy) (hint : preview.Hint) (sampleLimit : Int)
    (hh : (Evaluate h args ctx p).PreviewHint = some hint) :
    preview.Run h t hint ctx sampleLimit ≠ none := by
  rw [Ne, preview.Run_eq_none_iff]
  rintro ⟨hk, hlen⟩
  cases args with
  | nil => simp [Evaluate] at hh
  | cons cmd rest =>
    simp only [Evaluate] at hh
    split_ifs at hh
    have h2 := previewHint_git_clean h (cmd :: rest) _ _ hint hh hk
    omega

/-- C19, as the code has it: on a git-clean hint whose argument vector has one token,
`preview.Run` panics in `previewGitClean` at `hint.Args[2:]` and returns no result, and
so it does on a git-clean hint with no token; a find-delete hint with no token gets a
result with an error text. -/
theorem preview_run_panics_on_short_git_clean :
    shortGitCleanHint.Args.length = 1 ∧
    preview.Run sampleHost sampleTools shortGitCleanHint sampleCtx 5 = none ∧
    preview.Run sampleHost sampleTools { Kind := preview.HintGitClean, Args := [] }
      sampleCtx 5 = none ∧
    preview.Run sampleHost sampleTools { Kind := preview.HintFindDelete, Args := [] }
      sampleCtx 5 = some { Err := "no args for find" } := by
  decide

/-- C19, amended: on every hint that is not a git-clean hint with fewer than two
tokens, in every context and for every sample limit, `preview.Run` returns a result
without panicking.  A failure is an error text in that result and nothing else: a kind
that is none of the three gives `no preview available`, a find-delete hint that leaves
nothing to run gives `no args for find`, and when the child process of a find-delete or
of a git-clean hint fails, the result carries the text of that error; a result with an
error text has count 0, no sample and no note.  Every git-clean hint that `Evaluate`
attaches to a verdict has two tokens or more. -/
theorem preview_run_returns_result (h : Host) (t : preview.Tools) (hint : preview.Hint)
    (ctx : contextinfo.Info) (sampleLimit : Int)
    (hlen : hint.Kind = preview.HintGitClean → 2 ≤ hint.Args.length) :
    (∃ r, preview.Run h t hint ctx sampleLimit = some r ∧
      (r.Err ≠ "" → r.Count = 0 ∧ r.Sample = [] ∧ r.Note = "")) ∧
    (hint.Kind ≠ preview.HintRM → hint.Kind ≠ preview.HintFindDelete →
      hint.Kind ≠ preview.HintGitClean →
      preview.Run h t hint ctx sampleLimit =
        some { Count := 0, Sample := [], Note := "", Err := "no preview available" }) ∧
    (hint.Kind = preview.HintFindDelete → (∀ a ∈ hint.Args, a = "-delete") →
      preview.Run h t hint ctx sampleLimit =
        some { Count := 0, Sample := [], Note := "", Err := "no args for find" }) ∧
    (∀ name args e, hint.Kind = preview.HintFindDelete →
      preview.findCommand hint = some (name, args) → t.output name args ctx.Cwd = .error e →
      preview.Run h t hint ctx sampleLimit =
        some { Count := 0, Sample := [], Note := "", Err := e }) ∧
    (∀ args e, hint.Kind = preview.HintGitClean →
      preview.gitCleanArgs hint = some args → t.output "git" args ctx.RepoRoot = .error e →
      preview.Run h t hint ctx sampleLimit =
        some { Count := 0, Sample := [], Note := "", Err := e }) ∧
    (∀ args p, (Evaluate h args ctx p).PreviewHint = some hint →
      hint.Kind = preview.HintGitClean → 2 ≤ hint.Args.length) := by
  have hfr : preview.HintFindDelete ≠ preview.HintRM := by decide
  have hgr : preview.HintGitClean ≠ preview.HintRM := by decide
  have hgf : preview.HintGitClean ≠ preview.HintFindDelete := by decide
  refine ⟨?_, ?_, ?_, ?_, ?_, ?_⟩
  · unfold preview.Run
    by_cases h1 : hint.Kind = preview.HintRM
    · rw [if_pos h1]
      refine ⟨_, rfl, ?_⟩
      intro he
      exact absurd rfl he
    · rw [if_neg h1]
      by_cases h2 : hint.Kind = preview.HintFindDelete
      · rw [if_pos h2]
        refine ⟨_, rfl, ?_⟩
        unfold preview.previewFindDelete
        cases preview.findCommand hint with
        | none => intro _; exact ⟨rfl, rfl, rfl⟩
        | some c =>
          obtain ⟨name, args⟩ := c
          dsimp only
          cases t.output name args ctx.Cwd with
          | error e => intro _; exact ⟨rfl, rfl, rfl⟩
          | ok out => intro he; exact absurd rfl he
      · rw [if_neg h2]
        by_cases h3 : hint.Kind = preview.HintGitClean
        · rw [if_pos h3]
          have hl := hlen h3
          have hn : ¬ hint.Args.length < 2 := by omega
          simp only [preview.previewGitClean, preview.gitCleanArgs, hn, if_false]
          cases t.output "git" (["clean", "-nd"] ++ (hint.Args.drop 2).filter fun a =>
            !(a == "-f" || a == "--force" || a == "-n" || a == "--dry-run")) ctx.RepoRoot with
          | error e => exact ⟨_, rfl, fun _ => ⟨rfl, rfl, rfl⟩⟩
          | ok out => exact ⟨_, rfl, fun he => absurd rfl he⟩
        · rw [if_neg h3]
          exact ⟨_, rfl, fun _ => ⟨rfl, rfl, rfl⟩⟩
  · intro h1 h2 h3
    unfold preview.Run
    rw [if_neg h1, if_neg h2, if_neg h3]
  · intro h2 hall
    have hnil : preview.findArgs hint = [] := by
      simp only [preview.findArgs, List.filter_eq_nil_iff]
      intro a ha
      simp [hall a ha]
    unfold preview.Run
    rw [if_neg (by rw [h2]; exact hfr), if_pos h2]
    simp [preview.previewFindDelete, preview.findCommand, hnil]
  · intro name args e h2 hc he
    unfold preview.Run
    rw [if_neg (by rw [h2]; exact hfr), if_pos h2]
    simp [preview.previewFindDelete, hc, he]
  · intro args e h3 hc he
    unfold preview.Run
    rw [if_neg (by rw [h3]; exact hgr), if_neg (by rw [h3]; exact hgf), if_pos h3]
    simp [preview.previewGitClean, hc, he]
  · intro args p hh hk
    cases args with
    | nil => simp [Evaluate] at hh
    | cons cmd rest =>
      simp only [Evaluate] at hh
      split_ifs at hh
      exact previewHint_git_clean h (cmd :: rest) _ _ hint hh hk

/-- On a machine on which no child process can be started, the git-clean hint of
`git clean -f -d` and the find-delete hint of `find . -name core -delete` get a result
with the text of the error, and a hint of an unknown kind gets `no preview available`. -/
theorem preview_run_returns_result_witness :
    preview.Run sampleHost brokenTools gitCleanHint sampleCtx 5 =
      some { Err := "executable file not found" } ∧
    preview.Run sampleHost brokenTools findCoreHint sampleCtx 5 =
      some { Err := "executable file not found" } ∧
    preview.Run sampleHost sampleTools { Kind := "mv", Args := [] } sampleCtx 5 =
      some { Err := "no preview available" } ∧
    (∃ r, preview.Run sampleHost sampleTools gitCleanHint sampleCtx 5 = some r ∧
      (r.Err ≠ "" → r.Count = 0 ∧ r.Sample = [] ∧ r.Note = "")) :=
  ⟨(preview_run_returns_result sampleHost brokenTools gitCleanHint sampleCtx 5
      (fun _ => by decide)).2.2.2.2.1 ["clean", "-nd", "-d"] "executable file not found"
      rfl (by decide) rfl,
   (preview_run_returns_result sampleHost brokenTools findCoreHint sampleCtx 5
      (fun hk => absurd hk (by decide))).2.2.2.1 "find" [".", "-name", "core"]
      "executable file not found" rfl (by decide) rfl,
   (preview_run_returns_result sampleHost sampleTools { Kind := "mv", Args := [] }
      sampleCtx 5 (fun hk => absurd hk (by decide))).2.1 (by decide) (by decide)
      (by decide),
   (preview_run_returns_result sampleHost sampleTools gitCleanHint sampleCtx 5
      (fun _ => by decide)).1⟩


theorem preview.findArgs_no_delete (hint : preview.Hint) :
    "-delete" ∉ preview.findArgs hint := by
  simp [preview.findArgs]

/-- C20: the code at a failing input.  For `find . -name *.tmp -exec rm {} ; -delete`
the ladder attaches a find-delete hint with the whole argument vector, and the preview of
that hint runs `find . -name *.tmp -exec rm {} ;`: the token `-delete` is gone, the
action `-exec rm` is handed to the child process. -/
theorem find_preview_keeps_exec :
    (Evaluate sampleHost findExecDelete sampleCtx samplePolicy).PreviewHint =
      some { Kind := preview.HintFindDelete, Args := findExecDelete } ∧
    preview.findCommand { Kind := preview.HintFindDelete, Args := findExecDelete } =
      some ("find", [".", "-name", "*.tmp", "-exec", "rm", "\x7b\x7d", ";"]) ∧
    "-exec" ∈ (preview.findArgs { Kind := preview.HintFindDelete, Args := findExecDelete }) := by
  decide

/-! ## The merge of policies -/

theorem policy.merge_Options (base override : policy.Policy) :
    (policy.merge base override).Options =
      { AllowOutsideRepo :=
          base.Options.AllowOutsideRepo || override.Options.AllowOutsideRepo,
        RequireCleanTreeForBreakGlass :=
          base.Options.RequireCleanTreeForBreakGlass ||
            override.Options.RequireCleanTreeForBreakGlass } := by
  simp only [policy.merge, apply_ite policy.Policy.Options, ite_self]
  cases override.Options.RequireCleanTreeForBreakGlass <;> simp

theorem policy.merge_Thresholds (base override : policy.Policy) :
    (policy.merge base override).Thresholds =
      { DeleteCount :=
          if override.Thresholds.DeleteCount ≠ 0 then override.Thresholds.DeleteCount
          else base.Thresholds.DeleteCount,
        ModifyCount :=
          if override.Thresholds.ModifyCount ≠ 0 then override.Thresholds.ModifyCount
          else base.Thresholds.ModifyCount,
        PreviewSample :=
          if override.Thresholds.PreviewSample ≠ 0 then override.Thresholds.PreviewSample
          else base.Thresholds.PreviewSample } := by
  simp only [policy.merge, apply_ite policy.Policy.Thresholds, ite_self]
  split_ifs <;> rfl

theorem policy.merge_Arbiter (base override : policy.Policy) :
    (policy.merge base override).Arbiter =
      if override.Arbiter.Enabled = true ∨ override.Arbiter.Provider ≠ "" ∨
          override.Arbiter.Model ≠ "" ∨ override.Arbiter.APIKeyEnv ≠ "" then
        override.Arbiter
      else base.Arbiter := by
  simp only [policy.merge, apply_ite policy.Policy.Arbiter, ite_self]
  split_ifs <;> simp_all

theorem policy.merge_lists (base override : policy.Policy) :
    (policy.merge base override).ProtectedPaths =
      (if override.ProtectedPaths ≠ [] then override.ProtectedPaths
       else base.ProtectedPaths) ∧
    (policy.merge base override).AllowCommands =
      (if override.AllowCommands ≠ [] then override.AllowCommands
       else base.AllowCommands) ∧
    (policy.merge base override).BlockCommands =
      (if override.BlockCommands ≠ [] then override.BlockCommands
       else base.BlockCommands) ∧
    (policy.merge base override).ConfirmCommands =
      (if override.ConfirmCommands ≠ [] then override.ConfirmCommands
       else base.ConfirmCommands) ∧
    (policy.merge base override).NetworkEgress =
      (if override.NetworkEgress ≠ [] then override.NetworkEgress
       else base.NetworkEgress) ∧
    (policy.merge base override).PackageManagers =
      (if override.PackageManagers ≠ [] then override.PackageManagers
       else base.PackageManagers) := by
  refine ⟨?_, ?_, ?_, ?_, ?_, ?_⟩
  · simp only [policy.merge, apply_ite policy.Policy.ProtectedPaths, ite_self]
    split_ifs <;> simp_all
  · simp only [policy.merge, apply_ite policy.Policy.AllowCommands, ite_self]
    split_ifs <;> simp_all
  · simp only [policy.merge, apply_ite policy.Policy.BlockCommands, ite_self]
    split_ifs <;> simp_all
  · simp only [policy.merge, apply_ite policy.Policy.ConfirmCommands, ite_self]
    split_ifs <;> simp_all
  · simp only [policy.merge, apply_ite policy.Policy.NetworkEgress, ite_self]
    split_ifs <;> simp_all
  · simp only [policy.merge, apply_ite policy.Policy.PackageManagers, ite_self]
    split_ifs <;> simp_all


/-- C21: after `merge`, `RequireCleanTreeForBreakGlass` is the base's value OR the
override's and `AllowOutsideRepo` is the base's value OR the override's, so that an
option the base sets stays set whatever the override says. -/
theorem merge_options_are_or (base override : policy.Policy) :
    (policy.merge base override).Options.RequireCleanTreeForBreakGlass =
      (base.Options.RequireCleanTreeForBreakGlass ||
        override.Options.RequireCleanTreeForBreakGlass) ∧
    (policy.merge base override).Options.AllowOutsideRepo =
      (base.Options.AllowOutsideRepo || override.Options.AllowOutsideRepo) ∧
    (base.Options.RequireCleanTreeForBreakGlass = true →
      (policy.merge base override).Options.RequireCleanTreeForBreakGlass = true) ∧
    (base.Options.AllowOutsideRepo = true →
      (policy.merge base override).Options.AllowOutsideRepo = true) := by
  rw [policy.merge_Options]
  refine ⟨rfl, rfl, ?_, ?_⟩
  · intro hb
    simp [hb]
  · intro hb
    simp [hb]

/-- An override with both options false leaves both options of the strict policy set. -/
theorem merge_options_are_or_witness :
    (policy.merge strictPolicy sampleOverride).Options.RequireCleanTreeForBreakGlass = true ∧
    (policy.merge strictPolicy sampleOverride).Options.AllowOutsideRepo = true :=
  ⟨(merge_options_are_or strictPolicy sampleOverride).2.2.1 rfl,
   (merge_options_are_or strictPolicy sampleOverride).2.2.2 rfl⟩

/-- C24: after `merge`, each threshold is the override's value when that is not zero and
the base's otherwise, each of the six lists is the override's list when that is not
empty and the base's otherwise, and the arbiter configuration is the override's when the
override enables it or one of its three strings is not empty, and the base's
otherwise. -/
theorem merge_fields (base override : policy.Policy) :
    (policy.merge base override).Thresholds.DeleteCount =
      (if override.Thresholds.DeleteCount ≠ 0 then override.Thresholds.DeleteCount
       else base.Thresholds.DeleteCount) ∧
    (policy.merge base override).Thresholds.ModifyCount =
      (if override.Thresholds.ModifyCount ≠ 0 then override.Thresholds.ModifyCount
       else base.Thresholds.ModifyCount) ∧
    (policy.merge base override).Thresholds.PreviewSample =
      (if override.Thresholds.PreviewSample ≠ 0 then override.Thresholds.PreviewSample
       else base.Thresholds.PreviewSample) ∧
    (policy.merge base override).ProtectedPaths =
      (if override.ProtectedPaths ≠ [] then override.ProtectedPaths
       else base.ProtectedPaths) ∧
    (policy.merge base override).AllowCommands =
      (if override.AllowCommands ≠ [] then override.AllowCommands
       else base.AllowCommands) ∧
    (policy.merge base override).BlockCommands =
      (if override.BlockCommands ≠ [] then override.BlockCommands
       else base.BlockCommands) ∧
    (policy.merge base override).ConfirmCommands =
      (if override.ConfirmCommands ≠ [] then override.ConfirmCommands
       else base.ConfirmCommands) ∧
    (policy.merge base override).NetworkEgress =
      (if override.NetworkEgress ≠ [] then override.NetworkEgress
       else base.NetworkEgress) ∧
    (policy.merge base override).PackageManagers =
      (if override.PackageManagers ≠ [] then override.PackageManagers
       else base.PackageManagers) ∧
    (policy.merge base override).Arbiter =
      (if override.Arbiter.Enabled = true ∨ override.Arbiter.Provider ≠ "" ∨
          override.Arbiter.Model ≠ "" ∨ override.Arbiter.APIKeyEnv ≠ "" then
        override.Arbiter
       else base.Arbiter) := by
  obtain ⟨h1, h2, h3, h4, h5, h6⟩ := policy.merge_lists base override
  rw [policy.merge_Thresholds, policy.merge_Arbiter]
  exact ⟨rfl, rfl, rfl, h1, h2, h3, h4, h5, h6, rfl⟩

/-! ## The shape of the verdicts -/

theorem signals_of_conditions (b1 b2 b3 b4 b5 b6 b7 : Bool) (t1 t2 t3 t4 t5 t6 t7 : String) :
    (let s : List String := []
     let s := if b1 = true then s ++ [t1] else s
     let s := if b2 = true then s ++ [t2] else s
     let s := if b3 = true then s ++ [t3] else s
     let s := if b4 = true then s ++ [t4] else s
     let s := if b5 = true then s ++ [t5] else s
     let s := if b6 = true then s ++ [t6] else s
     if b7 = true then s ++ [t7] else s) =
    (([(b1, t1), (b2, t2), (b3, t3), (b4, t4), (b5, t5), (b6, t6), (b7, t7)].filter
      fun c => c.1).map fun c => c.2) := by
  cases b1 <;> cases b2 <;> cases b3 <;> cases b4 <;> cases b5 <;> cases b6 <;> cases b7 <;> rfl

theorem riskSignals_eq_spec (h : Host) (args : List String) (ctx : contextinfo.Info)
    (p : policy.Policy) (lowerCmd : String) (targets : List String) :
    riskSignals h args ctx p lowerCmd targets = signalsSpec h args ctx p lowerCmd targets := by
  have h4 : (isOutsideRepo h targets ctx && !p.Options.AllowOutsideRepo) =
      decide ((if ctx.InRepo = true then
          ∃ t ∈ targets, ∃ r ∈ contextinfo.ResolvePath h ctx.Cwd t,
            ∀ rel ∈ relativeToRoot h ctx.RepoRoot r, strings.HasPrefix rel ".." = true
        else targets ≠ []) ∧ p.Options.AllowOutsideRepo = false) := by
    rw [isOutsideRepo_eq_spec, Bool.eq_iff_iff]
    simp
  unfold signalsSpec signalConditions
  rw [← isMutatingCommand_eq_spec, ← touchesProtected_eq_spec, ← hasForceFlag_eq_spec, ← h4,
    ← isNetworkEgress_eq_spec, ← isPackageManager_eq_spec, ← isFindDelete_eq_spec]
  exact signals_of_conditions _ _ _ _ _ _ _ _ _ _ _ _ _ _

theorem signalsSpec_sublist (h : Host) (args : List String) (ctx : contextinfo.Info)
    (p : policy.Policy) (lowerCmd : String) (targets : List String) :
    (signalsSpec h args ctx p lowerCmd targets).Sublist
      ["mutating command", "touches protected path", "force flag present",
       "outside repo root", "network egress command", "package manager install/upgrade",
       "find -delete"] := by
  have hs := ((List.filter_sublist (signalConditions h args ctx p lowerCmd targets)
    (p := fun c => c.1)).map fun c => c.2)
  simpa only [signalsSpec, signalConditions, List.map_cons, List.map_nil] using hs

/-- C22: on a command that tier 1 does not answer and that no allow-list entry matches,
the verdict is ALLOW with the reason `no risk signals` when none of the seven risk
conditions of the specification holds, and otherwise it is CONFIRM with, as signals, the
tags of the conditions that hold, in the order mutating command, touches protected path,
force flag present, outside repo root, network egress command, package manager
install/upgrade, find -delete, without repetition. -/
theorem evaluate_signals_exact (h : Host) (ctx : contextinfo.Info) (p : policy.Policy)
    (cmd : String) (rest : List String)
    (hnb : hardBlocked h (cmd :: rest) ctx p = false)
    (hna : inAllowList h (cmd :: rest) p.AllowCommands = false) :
    ((∀ c ∈ signalConditions h (cmd :: rest) ctx p (strings.ToLower h cmd)
          (extractTargetsSpec (cmd :: rest)), c.1 = false) →
      Evaluate h (cmd :: rest) ctx p =
        { Decision := DecisionAllow, Hard := false, Reasons := ["no risk signals"],
          Signals := [], PreviewHint := none, SaferAlternative := "" }) ∧
    ((∃ c ∈ signalConditions h (cmd :: rest) ctx p (strings.ToLower h cmd)
          (extractTargetsSpec (cmd :: rest)), c.1 = true) →
      (Evaluate h (cmd :: rest) ctx p).Decision = DecisionConfirm ∧
      (Evaluate h (cmd :: rest) ctx p).Signals =
        signalsSpec h (cmd :: rest) ctx p (strings.ToLower h cmd)
          (extractTargetsSpec (cmd :: rest))) ∧
    (signalsSpec h (cmd :: rest) ctx p (strings.ToLower h cmd)
        (extractTargetsSpec (cmd :: rest))).Sublist
      ["mutating command", "touches protected path", "force flag present",
       "outside repo root", "network egress command", "package manager install/upgrade",
       "find -delete"] ∧
    (signalsSpec h (cmd :: rest) ctx p (strings.ToLower h cmd)
        (extractTargetsSpec (cmd :: rest))).Nodup := by
  rw [← extractTargets_eq_spec]
  have hsub := signalsSpec_sublist h (cmd :: rest) ctx p (strings.ToLower h cmd)
    (extractTargets (cmd :: rest))
  refine ⟨?_, ?_, hsub, hsub.nodup (by decide)⟩
  · intro hall
    have hnil : signalsSpec h (cmd :: rest) ctx p (strings.ToLower h cmd)
        (extractTargets (cmd :: rest)) = [] := by
      simp only [signalsSpec, List.map_eq_nil_iff, List.filter_eq_nil_iff]
      intro c hc
      simp [hall c hc]
    rw [Evaluate_of_not_hardBlocked h cmd rest ctx p hnb, riskSignals_eq_spec, hnil]
    simp [hna]
  · rintro ⟨c, hc, hct⟩
    have hmem : c.2 ∈ signalsSpec h (cmd :: rest) ctx p (strings.ToLower h cmd)
        (extractTargets (cmd :: rest)) := by
      simp only [signalsSpec, List.mem_map, List.mem_filter]
      exact ⟨c, ⟨hc, hct⟩, rfl⟩
    rw [← riskSignals_eq_spec] at hmem ⊢
    rw [Evaluate_confirm_of_signal h cmd rest ctx p _ hnb hna hmem]
    exact ⟨rfl, rfl⟩

/-- The command `rm -f /etc/x` gets four signals in the order of the specification,
`curl -f example.org` the force flag and the network-egress signal, `npm install` the
package-manager signal, `find . -delete` the find signal, `cat ~/.ssh/id_rsa` the
protected-path and the outside-repository signal, and `cat notes` gets none. -/
theorem evaluate_signals_exact_witness :
    (Evaluate sampleHost ["rm", "-f", "/etc/x"] sampleCtx samplePolicy).Signals =
      ["mutating command", "touches protected path", "force flag present",
       "outside repo root"] ∧
    (Evaluate sampleHost ["curl", "-f", "example.org"] sampleCtx samplePolicy).Signals =
      ["force flag present", "network egress command"] ∧
    (Evaluate sampleHost ["npm", "install"] sampleCtx samplePolicy).Signals =
      ["package manager install/upgrade"] ∧
    (Evaluate sampleHost ["find", ".", "-delete"] sampleCtx samplePolicy).Signals =
      ["find -delete"] ∧
    (Evaluate envHost ["cat", "~/.ssh/id_rsa"] sampleCtx samplePolicy).Signals =
      ["touches protected path", "outside repo root"] ∧
    Evaluate sampleHost ["cat", "notes"] sampleCtx samplePolicy =
      { Decision := "ALLOW", Reasons := ["no risk signals"] } :=
  ⟨((evaluate_signals_exact sampleHost sampleCtx samplePolicy "rm" ["-f", "/etc/x"]
      (by decide) (by decide)).2.1 ⟨(true, "mutating command"), by decide, rfl⟩).2.trans
      (by decide),
   ((evaluate_signals_exact sampleHost sampleCtx samplePolicy "curl" ["-f", "example.org"]
      (by decide) (by decide)).2.1 ⟨(true, "network egress command"), by decide,
        rfl⟩).2.trans (by decide),
   ((evaluate_signals_exact sampleHost sampleCtx samplePolicy "npm" ["install"]
      (by decide) (by decide)).2.1 ⟨(true, "package manager install/upgrade"), by decide,
        rfl⟩).2.trans (by decide),
   ((evaluate_signals_exact sampleHost sampleCtx samplePolicy "find" [".", "-delete"]
      (by decide) (by decide)).2.1 ⟨(true, "find -delete"), by decide, rfl⟩).2.trans
      (by decide),
   ((evaluate_signals_exact envHost sampleCtx samplePolicy "cat" ["~/.ssh/id_rsa"]
      (by decide) (by decide)).2.1 ⟨(true, "touches protected path"), by decide,
        rfl⟩).2.trans (by decide),
   (evaluate_signals_exact sampleHost sampleCtx samplePolicy "cat" ["notes"]
      (by decide) (by decide)).1 (by decide)⟩

/-- C23: every verdict of `Evaluate` is well-formed: it carries a preview hint only
when the decision is CONFIRM, its hard flag is set exactly when the decision is BLOCK,
and its signal list is not empty exactly when the decision is CONFIRM. -/
theorem evaluate_well_formed (h : Host) (args : List String) (ctx : contextinfo.Info)
    (p : policy.Policy) :
    ((Evaluate h args ctx p).PreviewHint ≠ none →
      (Evaluate h args ctx p).Decision = DecisionConfirm) ∧
    ((Evaluate h args ctx p).Hard = true ↔
      (Evaluate h args ctx p).Decision = DecisionBlock) ∧
    ((Evaluate h args ctx p).Signals ≠ [] ↔
      (Evaluate h args ctx p).Decision = DecisionConfirm) := by
  cases args with
  | nil => simp [Evaluate, DecisionBlock, DecisionConfirm]
  | cons cmd rest =>
    simp only [Evaluate]
    split_ifs with h1 h2 h3 h4 h5 h6
    · simp [DecisionBlock, DecisionConfirm]
    · simp [DecisionBlock, DecisionConfirm]
    · simp [DecisionBlock, DecisionConfirm]
    · simp [DecisionBlock, DecisionConfirm]
    · simp [DecisionBlock, DecisionConfirm, DecisionAllow]
    · simp [DecisionBlock, DecisionConfirm, DecisionAllow]
    · have hne : riskSignals h (cmd :: rest) ctx p (strings.ToLower h cmd)
          (extractTargets (cmd :: rest)) ≠ [] := by
        intro hnil
        exact h6 (by simp [hnil])
      simp [DecisionBlock, DecisionConfirm, hne]

/-- The verdict for `rm foo` carries a hint and signals and is CONFIRM, not hard. -/
theorem evaluate_well_formed_witness :
    (Evaluate sampleHost ["rm", "foo"] sampleCtx samplePolicy).Decision = "CONFIRM" ∧
    (Evaluate sampleHost ["rm", "foo"] sampleCtx samplePolicy).Hard = false :=
  ⟨(evaluate_well_formed sampleHost ["rm", "foo"] sampleCtx samplePolicy).1 (by decide),
   by decide⟩


/-! ## The previews of `find -delete` and of `rm` -/

theorem preview.findSampleLoop_eq (sampleLimit : Int) :
    ∀ (lines : List String) (i : Nat) (sample : List String),
      preview.findSampleLoop sampleLimit i lines sample =
        sample ++ lines.take (sampleLimit - i).toNat
  | [], i, sample => by simp [preview.findSampleLoop]
  | line :: rest, i, sample => by
    by_cases hi : (i : Int) ≥ sampleLimit
    · have h0 : (sampleLimit - (i : Int)).toNat = 0 := by omega
      simp [preview.findSampleLoop, hi, h0]
    · have h1 : (sampleLimit - (i : Int)).toNat =
          (sampleLimit - ((i + 1 : Nat) : Int)).toNat + 1 := by
        omega
      rw [preview.findSampleLoop, if_neg hi, preview.findSampleLoop_eq sampleLimit rest (i + 1), h1]
      simp

theorem preview.previewFindDelete_ok (t : preview.Tools) (hint : preview.Hint)
    (ctx : contextinfo.Info) (sampleLimit : Int) (name : String) (args : List String)
    (out : String) (hcmd : preview.findCommand hint = some (name, args))
    (hout : t.output name args ctx.Cwd = .ok out) :
    preview.previewFindDelete t hint ctx sampleLimit =
      { Count := ((bytes.trimmedLines out).length : Int),
        Sample := (bytes.trimmedLines out).take sampleLimit.toNat,
        Note := "find output without -delete", Err := "" } := by
  simp [preview.previewFindDelete, hcmd, hout, preview.findSampleLoop_eq]

theorem bytes.splitLF_ne_nil : ∀ l : List Char, bytes.splitLF l ≠ []
  | [] => by simp [bytes.splitLF]
  | c :: cs => by
    simp only [bytes.splitLF]
    split_ifs
    · simp
    · cases hs : bytes.splitLF cs <;> simp

theorem bytes.trimmedLines_length_pos (out : String) :
    1 ≤ (bytes.trimmedLines out).length := by
  have hne := bytes.splitLF_ne_nil (strings.TrimSpace out).data
  simp only [bytes.trimmedLines, List.length_map]
  exact List.length_pos.2 hne

/-- C25: the code at a failing input.  For `find . -name core -delete` on a machine
where `find` succeeds and prints nothing, the preview reports a count of 1 and a sample
that holds one empty line, where no path was matched. -/
theorem find_preview_counts_empty_output :
    preview.findCommand findCoreHint = some ("find", [".", "-name", "core"]) ∧
    quietFindTools.output "find" [".", "-name", "core"] sampleCtx.Cwd = .ok "" ∧
    preview.previewFindDelete quietFindTools findCoreHint sampleCtx 5 =
      { Count := 1, Sample := [""], Note := "find output without -delete", Err := "" } ∧
    preview.Run sampleHost quietFindTools findCoreHint sampleCtx 5 =
      some { Count := 1, Sample := [""], Note := "find output without -delete", Err := "" } :=
  ⟨by decide, rfl, by decide, by decide⟩

theorem preview.previewRmLoop_eq (h : Host) (t : preview.Tools) (ctx : contextinfo.Info)
    (sampleLimit : Int) :
    ∀ (targets : List String) (count : Int) (sample : List String),
      preview.previewRmLoop h t ctx sampleLimit targets count sample =
        (count + ((preview.existingTargets h t ctx targets).length : Int),
         sample ++ (preview.existingTargets h t ctx targets).take
           (sampleLimit - (sample.length : Int)).toNat)
  | [], count, sample => by simp [preview.previewRmLoop, preview.existingTargets]
  | target :: rest, count, sample => by
    have ih := preview.previewRmLoop_eq h t ctx sampleLimit rest
    simp only [preview.previewRmLoop, preview.existingTargets, List.filterMap_cons]
    cases hres : contextinfo.ResolvePath h ctx.Cwd target with
    | none =>
      simp only []
      rw [ih]
      rfl
    | some resolved =>
      simp only []
      by_cases hst : t.statOk resolved = true
      · simp only [hst, if_true]
        rw [ih]
        by_cases hlt : (sample.length : Int) < sampleLimit
        · have h1 : (sampleLimit - (sample.length : Int)).toNat =
              (sampleLimit - ((sample.length + 1 : Nat) : Int)).toNat + 1 := by omega
          simp only [if_pos hlt, List.length_cons, List.length_append, List.length_nil, h1,
            List.take_succ_cons, List.append_assoc, List.singleton_append, zero_add]
          refine Prod.ext ?_ rfl
          simp only [preview.existingTargets]
          push_cast
          ring
        · have h0 : (sampleLimit - (sample.length : Int)).toNat = 0 := by omega
          simp only [if_neg hlt, h0, List.take_zero, List.append_nil, List.length_cons]
          refine Prod.ext ?_ rfl
          simp only [preview.existingTargets]
          push_cast
          ring
      · simp only [hst, if_false, Bool.false_eq_true]
        rw [ih]
        rfl

theorem preview.previewRm_eq (h : Host) (t : preview.Tools) (hint : preview.Hint)
    (ctx : contextinfo.Info) (sampleLimit : Int) :
    preview.previewRm h t hint ctx sampleLimit =
      { Count := ((preview.existingTargets h t ctx hint.Targets).length : Int),
        Sample := (preview.existingTargets h t ctx hint.Targets).take sampleLimit.toNat,
        Note := "targets resolved from provided arguments", Err := "" } := by
  simp [preview.previewRm, preview.previewRmLoop_eq]


/-- C26, as the code has it: the one target of `rm foo` resolves to `/repo/foo`, which
exists, and with a sample limit of 0 the preview counts it and leaves the sample empty;
with a sample limit of -1 the empty sample is longer than the limit. -/
theorem rm_preview_sample_needs_positive_limit :
    contextinfo.ResolvePath sampleHost sampleCtx.Cwd "foo" = some "/repo/foo" ∧
    sampleTools.statOk "/repo/foo" = true ∧
    preview.previewRm sampleHost sampleTools rmFooHint sampleCtx 0 =
      { Count := 1, Sample := [], Note := "targets resolved from provided arguments",
        Err := "" } ∧
    "/repo/foo" ∉ (preview.previewRm sampleHost sampleTools rmFooHint sampleCtx 0).Sample ∧
    ¬ (((preview.previewRm sampleHost sampleTools rmFooHint sampleCtx (-1)).Sample.length : Int)
        ≤ -1) := by
  decide

/-- C26, amended: the rm preview counts the targets that resolve and exist; its sample
holds the resolved paths of the first min(sampleLimit, Count) of them in argument order,
which is none for a limit of zero or less and never more than a limit that is not
negative; its error string is empty; and for one existing target the count is 1 and,
with a sample limit of at least 1, the sample consists of the resolved path. -/
theorem rm_preview_counts_existing (h : Host) (t : preview.Tools) (hint : preview.Hint)
    (ctx : contextinfo.Info) (sampleLimit : Int) :
    (preview.previewRm h t hint ctx sampleLimit).Count =
      ((preview.existingTargets h t ctx hint.Targets).length : Int) ∧
    (preview.previewRm h t hint ctx sampleLimit).Sample =
      (preview.existingTargets h t ctx hint.Targets).take
        (min sampleLimit (preview.previewRm h t hint ctx sampleLimit).Count).toNat ∧
    (sampleLimit ≤ 0 → (preview.previewRm h t hint ctx sampleLimit).Sample = []) ∧
    (0 ≤ sampleLimit →
      ((preview.previewRm h t hint ctx sampleLimit).Sample.length : Int) ≤ sampleLimit) ∧
    (preview.previewRm h t hint ctx sampleLimit).Err = "" ∧
    (∀ target resolved, hint.Targets = [target] →
      contextinfo.ResolvePath h ctx.Cwd target = some resolved →
      t.statOk resolved = true →
      (preview.previewRm h t hint ctx sampleLimit).Count = 1 ∧
      (1 ≤ sampleLimit →
        (preview.previewRm h t hint ctx sampleLimit).Sample = [resolved])) := by
  rw [preview.previewRm_eq]
  dsimp only
  refine ⟨rfl, ?_, ?_, ?_, rfl, ?_⟩
  · by_cases hle : sampleLimit ≤ ((preview.existingTargets h t ctx hint.Targets).length : Int)
    · rw [min_eq_left hle]
    · rw [min_eq_right (by omega), Int.toNat_ofNat, List.take_length,
        List.take_of_length_le (by omega)]
  · intro hle
    have h0 : sampleLimit.toNat = 0 := by omega
    rw [h0, List.take_zero]
  · intro hge
    rw [List.length_take]
    omega
  · intro target resolved htargets hres hst
    have hex : preview.existingTargets h t ctx hint.Targets = [resolved] := by
      simp [preview.existingTargets, htargets, hres, hst]
    rw [hex]
    refine ⟨rfl, ?_⟩
    intro hpos
    have h1 : sampleLimit.toNat = (sampleLimit.toNat - 1) + 1 := by omega
    rw [h1, List.take_succ_cons, List.take_nil]

/-- With the limit 5, the preview of `rm foo` counts one target and samples `/repo/foo`. -/
theorem rm_preview_counts_existing_witness :
    (preview.previewRm sampleHost sampleTools rmFooHint sampleCtx 5).Count = 1 ∧
    (preview.previewRm sampleHost sampleTools rmFooHint sampleCtx 5).Sample = ["/repo/foo"] ∧
    (preview.previewRm sampleHost sampleTools rmFooHint sampleCtx 0).Sample = [] :=
  ⟨((rm_preview_counts_existing sampleHost sampleTools rmFooHint sampleCtx 5).2.2.2.2.2
      "foo" "/repo/foo" rfl (by decide) (by decide)).1,
   ((rm_preview_counts_existing sampleHost sampleTools rmFooHint sampleCtx 5).2.2.2.2.2
      "foo" "/repo/foo" rfl (by decide) (by decide)).2 (by decide),
   (rm_preview_counts_existing sampleHost sampleTools rmFooHint sampleCtx 0).2.2.1
      (by decide)⟩

/-! ## The case of the command name -/

/-- C27: the code at a failing input.  The names `GIT` and `git` differ in letter case
only; `git clean -fdx` gets the hard BLOCK and `GIT clean -fdx` gets CONFIRM, and in a
dirty tree `git reset --hard` gets the hard BLOCK and `GIT reset --hard` gets CONFIRM. -/
theorem evaluate_git_rules_case_sensitive :
    strings.ToLower sampleHost "GIT" = strings.ToLower sampleHost "git" ∧
    (Evaluate sampleHost ["git", "clean", "-fdx"] sampleCtx samplePolicy).Decision = "BLOCK" ∧
    (Evaluate sampleHost ["git", "clean", "-fdx"] sampleCtx samplePolicy).Hard = true ∧
    (Evaluate sampleHost ["GIT", "clean", "-fdx"] sampleCtx samplePolicy).Decision = "CONFIRM" ∧
    (Evaluate sampleHost ["GIT", "clean", "-fdx"] sampleCtx samplePolicy).Hard = false ∧
    (Evaluate sampleHost ["git", "reset", "--hard"] dirtyCtx samplePolicy).Decision = "BLOCK" ∧
    (Evaluate sampleHost ["git", "reset", "--hard"] dirtyCtx samplePolicy).Hard = true ∧
    (Evaluate sampleHost ["GIT", "reset", "--hard"] dirtyCtx samplePolicy).Decision = "CONFIRM" ∧
    (Evaluate sampleHost ["GIT", "reset", "--hard"] dirtyCtx samplePolicy).Hard = false := by
  decide

end Clash
